import Mathlib

/-!
# Numeric utilities of `Common/util/numbers.hpp`

A shallow embedding of `Util::ClampTo`, `Util::WordCast`, `Util::impl::pow`,
the two `Util::impl::NumberParser` specialisations and `Util::ParseNumber`.

Conventions of the embedding.

* A value of an integer type is the mathematical integer it denotes (`Int`);
  the type itself is an `IntType` (size in bytes, signedness).  Conversions
  and arithmetic reduce modulo `2 ^ bits` (two's complement wraparound).
* `std::size_t` is 64 bits wide; its arithmetic is `Nat` arithmetic modulo
  `2 ^ 64`.
* A character span (`std::wstring_view`) is the list of its code units.
* The outcome of a parse is `Except Failure Int`; a loop whose condition can
  hold for ever takes a step budget and answers `none` when the budget is used
  up.
* Operations to which C++ gives no behaviour and which have no wraparound
  reading are explicit: a read outside the span and a shift by the width of
  the operand or more are a `Failure`, `std::clamp` with bounds out of order
  is `none`.
-/

namespace Util

/-! ## Integer types -/

/-- An integer type of the program: `sizeof` in bytes and `std::is_signed_v`. -/
structure IntType where
  size : Nat
  isSigned : Bool
  size_pos : 0 < size
deriving DecidableEq

def int8_t : IntType := ⟨1, true, by decide⟩
def uint8_t : IntType := ⟨1, false, by decide⟩
def int16_t : IntType := ⟨2, true, by decide⟩
def uint16_t : IntType := ⟨2, false, by decide⟩
def int32_t : IntType := ⟨4, true, by decide⟩
def uint32_t : IntType := ⟨4, false, by decide⟩
def int64_t : IntType := ⟨8, true, by decide⟩
def uint64_t : IntType := ⟨8, false, by decide⟩

namespace IntType

/-- Width of the type in bits. -/
def bits (T : IntType) : Nat := 8 * T.size

/-- Number of distinct bit patterns, `2 ^ bits`. -/
def modulus (T : IntType) : Nat := 2 ^ T.bits

/-- The value `2 ^ (bits - 1)`, weight of the top bit. -/
def half (T : IntType) : Nat := 2 ^ (T.bits - 1)

/-- `(std::numeric_limits<T>::min)()`. -/
def numeric_limits_min (T : IntType) : Int :=
  if T.isSigned then -(T.half : Int) else 0

/-- `(std::numeric_limits<T>::max)()`. -/
def numeric_limits_max (T : IntType) : Int :=
  if T.isSigned then (T.half : Int) - 1 else (T.modulus : Int) - 1

/-- The integer `x` is a value of type `T`. -/
def inRange (T : IntType) (x : Int) : Prop :=
  T.numeric_limits_min ≤ x ∧ x ≤ T.numeric_limits_max

instance (T : IntType) (x : Int) : Decidable (T.inRange x) := by
  unfold inRange; exact inferInstance

/-- Conversion of an integer to `T` (`static_cast<T>` and every implicit
integer conversion): the value of `T` congruent to `x` modulo `2 ^ bits`. -/
def cast (T : IntType) (x : Int) : Int :=
  let m := x % (T.modulus : Int)
  if T.isSigned = true ∧ (T.half : Int) ≤ m then m - (T.modulus : Int) else m

/-- Integral promotion: a type narrower than `int` is promoted to `int`
(32 bits, signed); the other types are kept.  An arithmetic operator whose
operands are an `int` and a `T` is evaluated in `T.promote`. -/
def promote (T : IntType) : IntType :=
  if T.size < 4 then int32_t else T

/-- Every value of `T` is a value of `U`. -/
def fitsIn (T U : IntType) : Prop :=
  U.numeric_limits_min ≤ T.numeric_limits_min ∧ T.numeric_limits_max ≤ U.numeric_limits_max

instance (T U : IntType) : Decidable (T.fitsIn U) := by
  unfold fitsIn; exact inferInstance

end IntType

/-! ## `ClampTo` -/

/-- The standard library's `std::clamp(v, lo, hi)`: `lo` if `v < lo`, `hi` if
`hi < v`, otherwise `v`.  The C++ standard gives it no behaviour when
`hi < lo`; that case is `none`. -/
def std_clamp (v lo hi : Int) : Option Int :=
  if hi < lo then none
  else some (if v < lo then lo else if hi < v then hi else v)

/-- `Util::ClampTo<T, U>(value)`:
`static_cast<T>(std::clamp<U>(value, numeric_limits<T>::min(), numeric_limits<T>::max()))`.
The explicit template argument makes both bounds parameters of type
`const U&`, so the limits of `T` are converted to `U` before the comparison. -/
def ClampTo (T U : IntType) (value : Int) : Option Int :=
  match std_clamp value (U.cast T.numeric_limits_min) (U.cast T.numeric_limits_max) with
  | none => none
  | some r => some (T.cast r)

/-! ## `WordCast` -/

/-- Little-endian bytes of a natural number, `n` of them. -/
def toLE : Nat → Nat → List Nat
  | 0, _ => []
  | n + 1, x => (x % 256) :: toLE n (x / 256)

/-- The natural number whose little-endian bytes are given. -/
def ofLE : List Nat → Nat
  | [] => 0
  | b :: bs => b % 256 + 256 * ofLE bs

/-- Object representation of the value `v` of type `T`: `sizeof(T)` bytes,
two's complement. -/
def IntType.toBytes (T : IntType) (v : Int) : List Nat :=
  toLE T.size (v % (T.modulus : Int)).toNat

/-- The value of type `T` whose object representation is the first
`sizeof(T)` bytes of `bs`. -/
def IntType.ofBytes (T : IntType) (bs : List Nat) : Int :=
  T.cast (ofLE (bs.take T.size))

/-- `std::memcpy(dst, src, n)` on byte lists: the first `n` bytes of `dst`
are replaced by the first `n` bytes of `src`. -/
def memcpy (dst src : List Nat) (n : Nat) : List Nat :=
  src.take n ++ dst.drop n

/-- `Util::WordCast<T, F>(v)`.  `ret0` stands for the indeterminate bytes of
the uninitialised local `T ret;`.  The two `static_assert`s on trivially
copyable types hold for every integer type; `sizeof(T) == sizeof(F)` is a
hypothesis of the theorems. -/
def WordCast (T F : IntType) (v : Int) (ret0 : List Nat) : Int :=
  let ret := memcpy ret0 (F.toBytes v) T.size
  T.ofBytes ret

/-! ## Character classification -/

namespace impl

/-- A wide character literal `L'c'`: its code unit. -/
def L (c : Char) : Nat := c.toNat

/-- `impl::IsDecimalDigit`. -/
def IsDecimalDigit (character : Nat) : Bool :=
  decide (character ≥ L '0') && decide (character ≤ L '9')

/-- `impl::IsCapitalHexDigit`. -/
def IsCapitalHexDigit (character : Nat) : Bool :=
  decide (character ≥ L 'A') && decide (character ≤ L 'F')

/-- `impl::IsLowerHexDigit`. -/
def IsLowerHexDigit (character : Nat) : Bool :=
  decide (character ≥ L 'a') && decide (character ≤ L 'f')

/-! ## `impl::pow` -/

/-- The loop `for (std::size_t i = exponent - 1; i > 0; i--) result *= base;`
of `impl::pow<T>`, started at `i`.  `result *= base` multiplies in
`T.promote` and converts back to `T`. -/
def pow_loop (T : IntType) (base : Nat) : Nat → Int → Int
  | 0, result => result
  | i + 1, result => pow_loop T base i (T.cast (T.promote.cast (result * (base : Int))))

/-- `impl::pow<T>(base, exponent)`. -/
def pow (T : IntType) (base : Nat) (exponent : Nat) : Int :=
  if exponent = 0 then T.cast 1
  else pow_loop T base (exponent - 1) (T.cast (base : Int))

/-! ## `std::size_t` arithmetic -/

/-- The largest `std::size_t`. -/
def SIZE_MAX : Nat := 2 ^ 64 - 1

/-- Subtraction `a - b` of two `std::size_t` (both below `2 ^ 64`), modulo
`2 ^ 64`: the difference when `b <= a`, and the difference plus `2 ^ 64` when
the subtraction wraps around. -/
def size_t_sub (a b : Nat) : Nat := if b ≤ a then a - b else a + 2 ^ 64 - b

/-- Multiplication `a * b` of two `std::size_t`, modulo `2 ^ 64`. -/
def size_t_mul (a b : Nat) : Nat := (a * b) % 2 ^ 64

/-! ## The parsers -/

deriving instance DecidableEq for Except

/-- How a parse ends when it does not return a value. -/
inductive Failure where
  /-- The statement `throw std::invalid_argument("Not a number")`. -/
  | invalid_argument
  /-- The read `number[i]` with `i >= number.length()`, which has no defined
  behaviour; `result` is the value accumulated up to that read. -/
  | out_of_bounds (i : Nat) (result : Int)
  /-- The shift `1 << n` of an `int` by `n >= 32`, which has no defined
  behaviour (and no agreed result: processors that reduce the count modulo
  32 give `1 << (n % 32)`, others give `0`). -/
  | shift_too_wide (n : Nat)
deriving DecidableEq

/-- The compound assignment `result += digit * power` for a `T result`, an
`int digit` and a `T power`: product and sum are evaluated in `T.promote`,
the sum is converted back to `T`. -/
def accumulate (T : IntType) (result digit power : Int) : Int :=
  T.cast (T.promote.cast (result + T.promote.cast (digit * power)))

/-- One pass through the body of the loop of `NumberParser<T, 10>::impl`, at
the index `i` with the accumulator `result`: the new accumulator, or the way
the pass fails. -/
def NumberParser10_body (T : IntType) (number : List Nat) (i : Nat) (result : Int) :
    Except Failure Int :=
  match number[i]? with
  | none => .error (.out_of_bounds i result)
  | some c =>
    if IsDecimalDigit c then
      let power := pow T 10 (size_t_sub (size_t_sub number.length i) 1)
      .ok (accumulate T result ((c : Int) - (L '0' : Int)) power)
    else
      .error .invalid_argument

/-- The scan of `NumberParser<T, 10>::impl`,
`for (std::size_t i = number.length() - 1; i >= 0; i--)`, entered with the
index `i` and the accumulator `result`; `some (.ok result)` is the state in
which the loop condition fails. -/
def NumberParser10_loop (T : IntType) (number : List Nat) :
    Nat → Nat → Int → Option (Except Failure Int)
  | 0, _, _ => none
  | fuel + 1, i, result =>
    if i ≥ 0 then
      match NumberParser10_body T number i result with
      | .error e => some (.error e)
      | .ok result => NumberParser10_loop T number fuel (size_t_sub i 1) result
    else
      some (.ok result)

/-- `NumberParser<T, 10>::impl(number)`. -/
def NumberParser10 (T : IntType) (fuel : Nat) (number : List Nat) :
    Option (Except Failure Int) :=
  let isNegative : Bool :=
    T.isSigned && (decide (number.length > 1) && (number[0]? == some (L '-')))
  let number := if isNegative then number.drop 1 else number
  match NumberParser10_loop T number fuel (size_t_sub number.length 1) 0 with
  | none => none
  | some (.error e) => some (.error e)
  | some (.ok result) =>
    if T.isSigned then
      some (.ok (if isNegative then T.cast (T.promote.cast (-result)) else result))
    else
      some (.ok result)

/-- The expression `1 << n`: the left operand is the `int` literal `1`, so the
shift is a 32-bit signed shift whatever the target type is. -/
def shl_int_1 (n : Nat) : Option Int :=
  if n < 31 then some ((2 ^ n : Nat) : Int)
  else if n = 31 then some (-((2 ^ 31 : Nat) : Int))
  else none

/-- One pass through the body of the loop of `NumberParser<T, 16>::impl`, at
the index `i` with the accumulator `result`.  The weight `power` is computed
before the character is read and classified. -/
def NumberParser16_body (T : IntType) (number : List Nat) (i : Nat) (result : Int) :
    Except Failure Int :=
  let n := size_t_mul (size_t_sub (size_t_sub number.length i) 1) 4
  match shl_int_1 n with
  | none => .error (.shift_too_wide n)
  | some p =>
    let power := T.cast p
    match number[i]? with
    | none => .error (.out_of_bounds i result)
    | some c =>
      if IsDecimalDigit c then
        .ok (accumulate T result ((c : Int) - (L '0' : Int)) power)
      else if IsCapitalHexDigit c then
        .ok (accumulate T result ((c : Int) - (L 'A' : Int) + 10) power)
      else if IsLowerHexDigit c then
        .ok (accumulate T result ((c : Int) - (L 'a' : Int) + 10) power)
      else
        .error .invalid_argument

/-- The scan of `NumberParser<T, 16>::impl`,
`for (std::size_t i = number.length() - 1; i >= 0; i--)`, entered with the
index `i` and the accumulator `result`. -/
def NumberParser16_loop (T : IntType) (number : List Nat) :
    Nat → Nat → Int → Option (Except Failure Int)
  | 0, _, _ => none
  | fuel + 1, i, result =>
    if i ≥ 0 then
      match NumberParser16_body T number i result with
      | .error e => some (.error e)
      | .ok result => NumberParser16_loop T number fuel (size_t_sub i 1) result
    else
      some (.ok result)

/-- `NumberParser<T, 16>::impl(number)`.  The `static_assert` restricts `T`
to unsigned types. -/
def NumberParser16 (T : IntType) (fuel : Nat) (number : List Nat) :
    Option (Except Failure Int) :=
  let strip : Bool :=
    decide (number.length > 2) && (number[0]? == some (L '0')) &&
      (number[1]? == some (L 'x') || number[1]? == some (L 'X'))
  let number := if strip then number.drop 2 else number
  NumberParser16_loop T number fuel (size_t_sub number.length 1) 0

end impl

/-- The bases for which `impl::NumberParser` is specialised. -/
inductive Base where
  | b10
  | b16
deriving DecidableEq

/-- `Util::ParseNumber<T, base>(number)`. -/
def ParseNumber (T : IntType) (base : Base) (fuel : Nat) (number : List Nat) :
    Option (Except impl.Failure Int) :=
  match base with
  | .b10 => impl.NumberParser10 T fuel number
  | .b16 => impl.NumberParser16 T fuel number

/-- The code units of a string, as a span. -/
def wstring_view (s : String) : List Nat := s.toList.map impl.L

/-! ## Vocabulary of the stated properties -/

/-- Positional value in base `b`: the sum of `v_i * b ^ k_i`, where `k_i` is
the position of `v_i` counted from the right end. -/
def positional (b : Int) : List Int → Int
  | [] => 0
  | v :: vs => v * b ^ vs.length + positional b vs

/-- Value of a decimal digit character. -/
def decimalValue (c : Nat) : Int := (c : Int) - (impl.L '0' : Int)

/-- Value of a hexadecimal digit character: `0`..`9`, and `10`..`15` for
`A`..`F` and for `a`..`f`. -/
def hexValue (c : Nat) : Int :=
  if impl.IsDecimalDigit c then (c : Int) - (impl.L '0' : Int)
  else if impl.IsCapitalHexDigit c then (c : Int) - (impl.L 'A' : Int) + 10
  else (c : Int) - (impl.L 'a' : Int) + 10

/-- The character is one of `0`..`9`, `A`..`F`, `a`..`f`. -/
def IsHexDigit (c : Nat) : Bool :=
  impl.IsDecimalDigit c || impl.IsCapitalHexDigit c || impl.IsLowerHexDigit c

/-- The span `s` without one leading `-`, when `s` is longer than one
character. -/
def withoutSign (s : List Nat) : List Nat :=
  if s.length > 1 ∧ s[0]? = some (impl.L '-') then s.drop 1 else s

/-- The characters `c` and `d` differ at most by the case of a letter: they
are equal, or one is a letter of `a`..`f` and the other the same letter of
`A`..`F`, or they are `x` and `X`. -/
def caseVariant (c d : Nat) : Bool :=
  c == d ||
    (impl.IsLowerHexDigit c && impl.IsCapitalHexDigit d && (c - impl.L 'a' == d - impl.L 'A')) ||
    (impl.IsCapitalHexDigit c && impl.IsLowerHexDigit d && (c - impl.L 'A' == d - impl.L 'a')) ||
    (c == impl.L 'x' && d == impl.L 'X') || (c == impl.L 'X' && d == impl.L 'x')

/-- The span `t` is obtained from the span `s` by changing the case of some
of its letters. -/
def caseVariants : List Nat → List Nat → Bool
  | [], [] => true
  | c :: cs, d :: ds => caseVariant c d && caseVariants cs ds
  | _, _ => false

/-- The span `s` without one leading `0x` or `0X`, when `s` is longer than
two characters. -/
def withoutHexMark (s : List Nat) : List Nat :=
  if s.length > 2 ∧ s[0]? = some (impl.L '0') ∧
      (s[1]? = some (impl.L 'x') ∨ s[1]? = some (impl.L 'X')) then s.drop 2 else s

end Util

/-! # Properties -/

namespace Util
open impl

/-! ## Conversions -/

theorem IntType.bits_pos (T : IntType) : 0 < T.bits := by
  have := T.size_pos
  unfold IntType.bits; omega

theorem IntType.half_pos (T : IntType) : 0 < T.half := by
  unfold IntType.half; exact Nat.pos_pow_of_pos _ (by decide)

theorem IntType.modulus_eq (T : IntType) : T.modulus = 2 * T.half := by
  have h := T.bits_pos
  unfold IntType.modulus IntType.half
  obtain ⟨k, hk⟩ : ∃ k, T.bits = k + 1 := ⟨T.bits - 1, by omega⟩
  rw [hk, Nat.add_sub_cancel, pow_succ]; ring

theorem IntType.cast_inRange (T : IntType) (x : Int) : T.inRange (T.cast x) := by
  have hM := T.modulus_eq
  have hH := T.half_pos
  have h0 : 0 ≤ x % (T.modulus : Int) := Int.emod_nonneg _ (by omega)
  have h1 : x % (T.modulus : Int) < T.modulus := Int.emod_lt_of_pos _ (by omega)
  unfold IntType.inRange IntType.numeric_limits_min IntType.numeric_limits_max IntType.cast
  cases hs : T.isSigned
  · simp; omega
  · by_cases hx : (T.half : Int) ≤ x % (T.modulus : Int)
    · simp [hx]; omega
    · simp [hx]; omega

theorem IntType.cast_of_inRange (T : IntType) (x : Int) (h : T.inRange x) : T.cast x = x := by
  have hM := T.modulus_eq
  have hH := T.half_pos
  unfold IntType.inRange IntType.numeric_limits_min IntType.numeric_limits_max at h
  unfold IntType.cast
  cases hs : T.isSigned
  · rw [hs] at h
    simp only [Bool.false_eq_true, if_false, false_and] at h ⊢
    exact Int.emod_eq_of_lt h.1 (by omega)
  · rw [hs] at h
    simp only [if_true, true_and] at h ⊢
    by_cases hx : 0 ≤ x
    · have e : x % (T.modulus : Int) = x := Int.emod_eq_of_lt hx (by omega)
      rw [e, if_neg (by omega)]
    · have e : x % (T.modulus : Int) = x + T.modulus := by
        rw [← Int.add_emod_self]
        exact Int.emod_eq_of_lt (by omega) (by omega)
      rw [e, if_pos (by omega)]; omega

theorem IntType.cast_emod (T : IntType) (x : Int) :
    T.cast x % (T.modulus : Int) = x % (T.modulus : Int) := by
  unfold IntType.cast
  simp only
  split
  · rw [Int.sub_emod, Int.emod_self]; simp
  · simp

theorem IntType.cast_congr (T : IntType) (x y : Int)
    (h : x % (T.modulus : Int) = y % (T.modulus : Int)) : T.cast x = T.cast y := by
  unfold IntType.cast; simp only [h]

theorem IntType.cast_eq_of (T : IntType) (x y : Int) (hy : T.inRange y)
    (hxy : (T.modulus : Int) ∣ x - y) : T.cast x = y := by
  rw [← T.cast_of_inRange y hy]
  apply T.cast_congr
  exact Int.emod_eq_emod_iff_emod_sub_eq_zero.mpr (Int.emod_eq_zero_of_dvd hxy)

theorem IntType.min_le_max (T : IntType) : T.numeric_limits_min ≤ T.numeric_limits_max := by
  have hM := T.modulus_eq
  have hH := T.half_pos
  unfold IntType.numeric_limits_min IntType.numeric_limits_max
  cases T.isSigned <;> simp <;> omega

theorem two_pow_split (a b : Nat) (h : a ≤ b) : ∃ K : Nat, 0 < K ∧ 2 ^ b = 2 ^ a * K :=
  ⟨2 ^ (b - a), Nat.pos_pow_of_pos _ (by decide), by rw [← pow_add]; congr 1; omega⟩

theorem IntType.modulus_le (T U : IntType) (h : T.size ≤ U.size) : T.modulus ≤ U.modulus :=
  Nat.pow_le_pow_right (by decide) (by unfold IntType.bits; omega)

theorem IntType.modulus_le_half (T U : IntType) (h : T.size < U.size) : T.modulus ≤ U.half :=
  Nat.pow_le_pow_right (by decide) (by unfold IntType.bits; omega)

theorem IntType.modulus_dvd_modulus (T U : IntType) (h : U.size ≤ T.size) :
    ((U.modulus : Nat) : Int) ∣ ((T.modulus : Nat) : Int) := by
  obtain ⟨K, -, hK⟩ := two_pow_split U.bits T.bits (by unfold IntType.bits; omega)
  exact ⟨K, by unfold IntType.modulus; rw [hK]; push_cast; ring⟩

theorem IntType.modulus_dvd_half (T U : IntType) (h : U.size < T.size) :
    ((U.modulus : Nat) : Int) ∣ ((T.half : Nat) : Int) := by
  obtain ⟨K, -, hK⟩ := two_pow_split U.bits (T.bits - 1) (by unfold IntType.bits; omega)
  exact ⟨K, by unfold IntType.modulus IntType.half; rw [hK]; push_cast; ring⟩

/-- When the converted bounds are in order, a value of both types lies
between them. -/
theorem clamp_bounds (T U : IntType) (v : Int) (hv : U.inRange v) (hT : T.inRange v)
    (hb : U.cast T.numeric_limits_min ≤ U.cast T.numeric_limits_max) :
    U.cast T.numeric_limits_min ≤ v ∧ v ≤ U.cast T.numeric_limits_max := by
  have hMT := T.modulus_eq
  have hMU := U.modulus_eq
  have hHT := T.half_pos
  have hHU := U.half_pos
  -- the case where every value of `T` is a value of `U`
  have fits : U.inRange T.numeric_limits_min → U.inRange T.numeric_limits_max →
      U.cast T.numeric_limits_min ≤ v ∧ v ≤ U.cast T.numeric_limits_max := by
    intro h1 h2
    rw [U.cast_of_inRange _ h1, U.cast_of_inRange _ h2]
    exact hT
  unfold IntType.inRange at hv hT fits
  rcases Nat.lt_or_ge U.size T.size with hlt | hge
  · -- `T` is wider than `U`
    have d1 := T.modulus_dvd_half U hlt
    have d2 := T.modulus_dvd_modulus U (Nat.le_of_lt hlt)
    have l1 := U.modulus_le_half T hlt
    cases hs : T.isSigned <;> cases hu : U.isSigned <;>
      simp only [IntType.numeric_limits_min, IntType.numeric_limits_max, hs, hu,
        Bool.false_eq_true, if_false, if_true] at hv hT hb fits ⊢
    · -- unsigned to unsigned
      have e1 : U.cast 0 = 0 := U.cast_of_inRange 0 (by
        simp [IntType.inRange, IntType.numeric_limits_min, IntType.numeric_limits_max, hu]; omega)
      have e2 : U.cast ((T.modulus : Int) - 1) = (U.modulus : Int) - 1 :=
        U.cast_eq_of _ _ (by
          simp [IntType.inRange, IntType.numeric_limits_min, IntType.numeric_limits_max, hu]; omega)
          (by
            have : ((T.modulus : Int) - 1) - ((U.modulus : Int) - 1) = T.modulus - U.modulus := by ring
            rw [this]; exact dvd_sub d2 (dvd_refl _))
      rw [e1, e2]; omega
    · -- unsigned to signed
      have e1 : U.cast 0 = 0 := U.cast_of_inRange 0 (by
        simp [IntType.inRange, IntType.numeric_limits_min, IntType.numeric_limits_max, hu]; omega)
      have e2 : U.cast ((T.modulus : Int) - 1) = -1 :=
        U.cast_eq_of _ _ (by
          simp [IntType.inRange, IntType.numeric_limits_min, IntType.numeric_limits_max, hu]; omega)
          (by
            have : ((T.modulus : Int) - 1) - (-1) = T.modulus := by ring
            rw [this]; exact d2)
      rw [e1, e2] at hb; omega
    · -- signed to unsigned
      have e1 : U.cast (-(T.half : Int)) = 0 :=
        U.cast_eq_of _ _ (by
          simp [IntType.inRange, IntType.numeric_limits_min, IntType.numeric_limits_max, hu]; omega)
          (by
            have : (-(T.half : Int)) - 0 = -(T.half : Int) := by ring
            rw [this]; exact (dvd_neg).mpr d1)
      have e2 : U.cast ((T.half : Int) - 1) = (U.modulus : Int) - 1 :=
        U.cast_eq_of _ _ (by
          simp [IntType.inRange, IntType.numeric_limits_min, IntType.numeric_limits_max, hu]; omega)
          (by
            have : ((T.half : Int) - 1) - ((U.modulus : Int) - 1) = T.half - U.modulus := by ring
            rw [this]; exact dvd_sub d1 (dvd_refl _))
      rw [e1, e2]; omega
    · -- signed to signed
      have e1 : U.cast (-(T.half : Int)) = 0 :=
        U.cast_eq_of _ _ (by
          simp [IntType.inRange, IntType.numeric_limits_min, IntType.numeric_limits_max, hu]; omega)
          (by
            have : (-(T.half : Int)) - 0 = -(T.half : Int) := by ring
            rw [this]; exact (dvd_neg).mpr d1)
      have e2 : U.cast ((T.half : Int) - 1) = -1 :=
        U.cast_eq_of _ _ (by
          simp [IntType.inRange, IntType.numeric_limits_min, IntType.numeric_limits_max, hu]; omega)
          (by
            have : ((T.half : Int) - 1) - (-1) = T.half := by ring
            rw [this]; exact d1)
      rw [e1, e2] at hb; omega
  · -- `T` is at most as wide as `U`
    have l1 := T.modulus_le U hge
    cases hs : T.isSigned <;> cases hu : U.isSigned <;>
      simp only [IntType.numeric_limits_min, IntType.numeric_limits_max, hs, hu,
        Bool.false_eq_true, if_false, if_true] at hv hT hb fits ⊢
    · exact fits (by omega) (by omega)
    · -- unsigned to signed
      rcases Nat.lt_or_ge T.size U.size with hlt | hge2
      · have l2 := T.modulus_le_half U hlt
        exact fits (by omega) (by omega)
      · have d2 := T.modulus_dvd_modulus U hge2
        have e1 : U.cast 0 = 0 := U.cast_of_inRange 0 (by
          simp [IntType.inRange, IntType.numeric_limits_min, IntType.numeric_limits_max, hu]; omega)
        have e2 : U.cast ((T.modulus : Int) - 1) = -1 :=
          U.cast_eq_of _ _ (by
            simp [IntType.inRange, IntType.numeric_limits_min, IntType.numeric_limits_max, hu]; omega)
            (by
              have : ((T.modulus : Int) - 1) - (-1) = T.modulus := by ring
              rw [this]; exact d2)
        rw [e1, e2] at hb; omega
    · -- signed to unsigned
      have e1 : U.cast (-(T.half : Int)) = (U.modulus : Int) - T.half :=
        U.cast_eq_of _ _ (by
          simp [IntType.inRange, IntType.numeric_limits_min, IntType.numeric_limits_max, hu]; omega)
          (by
            have : (-(T.half : Int)) - ((U.modulus : Int) - T.half) = -(U.modulus : Int) := by ring
            rw [this]; exact (dvd_neg).mpr (dvd_refl _))
      have e2 : U.cast ((T.half : Int) - 1) = (T.half : Int) - 1 := U.cast_of_inRange _ (by
          simp [IntType.inRange, IntType.numeric_limits_min, IntType.numeric_limits_max, hu]; omega)
      rw [e1, e2] at hb; omega
    · exact fits (by omega) (by omega)

/-! ## Byte representation -/

theorem toLE_length (n x : Nat) : (toLE n x).length = n := by
  induction n generalizing x with
  | zero => rfl
  | succ n ih => simp [toLE, ih]

theorem ofLE_toLE (n x : Nat) : ofLE (toLE n x) = x % 256 ^ n := by
  induction n generalizing x with
  | zero => simp [toLE, ofLE, Nat.mod_one]
  | succ n ih =>
    simp only [toLE, ofLE, ih, Nat.mod_mod]
    rw [pow_succ, Nat.mul_comm (256 ^ n) 256, Nat.mod_mul]

theorem IntType.modulus_eq_pow (T : IntType) : T.modulus = 256 ^ T.size := by
  unfold IntType.modulus IntType.bits
  rw [pow_mul]; norm_num

theorem IntType.modulus_pos (T : IntType) : 0 < T.modulus := by
  unfold IntType.modulus; exact Nat.pos_pow_of_pos _ (by decide)

theorem IntType.modulus_eq_of_size (T F : IntType) (h : T.size = F.size) :
    T.modulus = F.modulus := by
  unfold IntType.modulus IntType.bits; rw [h]

/-- The bytes written by `WordCast` decode to the source value modulo `2 ^ bits`. -/
theorem WordCast_eq_cast (T F : IntType) (v : Int) (ret0 : List Nat) (h : T.size = F.size) :
    WordCast T F v ret0 = T.cast v := by
  have hpos := F.modulus_pos
  have h0 : 0 ≤ v % (F.modulus : Int) := Int.emod_nonneg _ (by omega)
  have h1 : v % (F.modulus : Int) < F.modulus := Int.emod_lt_of_pos _ (by omega)
  unfold WordCast IntType.ofBytes memcpy IntType.toBytes
  simp only
  have e1 : (toLE F.size (v % (F.modulus : Int)).toNat).take F.size
      = toLE F.size (v % (F.modulus : Int)).toNat :=
    List.take_of_length_le (by rw [toLE_length])
  rw [h, e1, List.take_left' (toLE_length _ _), ofLE_toLE, ← F.modulus_eq_pow]
  apply T.cast_congr
  rw [T.modulus_eq_of_size F h]
  have e : ((v % (F.modulus : Int)).toNat : Int) = v % (F.modulus : Int) := Int.toNat_of_nonneg h0
  have e2 : (((v % (F.modulus : Int)).toNat % F.modulus : Nat) : Int) = v % (F.modulus : Int) := by
    rw [Nat.mod_eq_of_lt (by omega)]; exact e
  rw [e2, Int.emod_emod_of_dvd _ (dvd_refl _)]

theorem IntType.toBytes_cast (T F : IntType) (v : Int) (h : T.size = F.size) :
    T.toBytes (T.cast v) = F.toBytes v := by
  unfold IntType.toBytes
  rw [T.cast_emod, T.modulus_eq_of_size F h, h]

/-! ## `ClampTo` (C8, C9) and `WordCast` (C10) -/

theorem ClampTo_of_fitsIn (T U : IntType) (v : Int) (hTU : T.fitsIn U) :
    ClampTo T U v = some (if v < T.numeric_limits_min then T.numeric_limits_min
      else if T.numeric_limits_max < v then T.numeric_limits_max else v) := by
  have hmm := T.min_le_max
  have hlo : U.cast T.numeric_limits_min = T.numeric_limits_min :=
    U.cast_of_inRange _ ⟨hTU.1, le_trans hmm hTU.2⟩
  have hhi : U.cast T.numeric_limits_max = T.numeric_limits_max :=
    U.cast_of_inRange _ ⟨le_trans hTU.1 hmm, hTU.2⟩
  unfold ClampTo std_clamp
  rw [hlo, hhi, if_neg (not_lt.mpr hmm)]
  simp only [Option.some.injEq]
  apply T.cast_of_inRange
  unfold IntType.inRange
  split
  · exact ⟨le_refl _, hmm⟩
  · split
    · exact ⟨hmm, le_refl _⟩
    · constructor <;> omega

/-- When every value of `T` is a value of `U`, the converted bounds are in
order. -/
theorem ordered_bounds_of_fitsIn (T U : IntType) (hTU : T.fitsIn U) :
    U.cast T.numeric_limits_min ≤ U.cast T.numeric_limits_max := by
  have hmm := T.min_le_max
  rw [U.cast_of_inRange _ ⟨hTU.1, le_trans hmm hTU.2⟩,
    U.cast_of_inRange _ ⟨le_trans hTU.1 hmm, hTU.2⟩]
  exact hmm

/-- C8 (as stated, refuted): with `U = int32_t`, `T = uint32_t` and `v = 5`, a
value of both types, the limits `0` and `4294967295` of `T` become `0` and
`-1` once converted to `U`, out of order, and `std::clamp` has no defined
result: `ClampTo<uint32_t>(5)` is not guaranteed to be `5`. -/
theorem ClampTo_uint32_of_int32_not_identity :
    int32_t.inRange 5 ∧ uint32_t.inRange 5 ∧
      int32_t.cast uint32_t.numeric_limits_min = 0 ∧
      int32_t.cast uint32_t.numeric_limits_max = -1 ∧
      ¬ ∃ r, ClampTo uint32_t int32_t 5 = some r ∧ uint32_t.inRange r ∧
        (uint32_t.inRange 5 → r = 5) := by
  refine ⟨by decide, by decide, by decide, by decide, ?_⟩
  rintro ⟨r, hr, -⟩
  have h : ClampTo uint32_t int32_t 5 = none := by decide
  rw [h] at hr
  exact Option.noConfusion hr

/-- C8 (amended): for every pair of integer types `U`, `T` whose converted
bounds are in order, `(U)min(T) <= (U)max(T)`, and every value `v` of `U`,
`ClampTo<T>(v)` is defined, lies in `[min(T), max(T)]`, and equals `v` whenever
`v` already lies in `[min(T), max(T)]`. -/
theorem ClampTo_in_range_of_ordered_bounds (T U : IntType) (v : Int) (hv : U.inRange v)
    (hb : U.cast T.numeric_limits_min ≤ U.cast T.numeric_limits_max) :
    ∃ r, ClampTo T U v = some r ∧ T.inRange r ∧ (T.inRange v → r = v) := by
  unfold ClampTo std_clamp
  rw [if_neg (not_lt.mpr hb)]
  refine ⟨_, rfl, T.cast_inRange _, ?_⟩
  intro hT
  obtain ⟨h1, h2⟩ := clamp_bounds T U v hv hT hb
  rw [if_neg (not_lt.mpr h1), if_neg (not_lt.mpr h2)]
  exact T.cast_of_inRange v hT

theorem ClampTo_in_range_of_ordered_bounds_witness :
    int32_t.inRange 300 ∧
      int32_t.cast uint8_t.numeric_limits_min ≤ int32_t.cast uint8_t.numeric_limits_max ∧
      ∃ r, ClampTo uint8_t int32_t 300 = some r ∧ uint8_t.inRange r ∧
        (uint8_t.inRange 300 → r = 300) :=
  ⟨by decide, by decide,
    ClampTo_in_range_of_ordered_bounds uint8_t int32_t 300 (by decide) (by decide)⟩

/-- C9: when every value of `T` is a value of `U`, `ClampTo<T>` saturates:
for every integer `v`, in particular every value of `U`, `ClampTo<T>(v)` is
`max(T)` if `v > max(T)`, `min(T)` if `v < min(T)`, and `v` otherwise. -/
theorem ClampTo_saturates (T U : IntType) (v : Int) (hTU : T.fitsIn U) :
    ClampTo T U v = some (if v > T.numeric_limits_max then T.numeric_limits_max
      else if v < T.numeric_limits_min then T.numeric_limits_min else v) := by
  have hmm := T.min_le_max
  rw [ClampTo_of_fitsIn T U v hTU]
  congr 1
  split_ifs <;> omega

theorem ClampTo_saturates_witness :
    uint8_t.fitsIn int32_t ∧ ClampTo uint8_t int32_t 300 = some 255 ∧
      ClampTo uint8_t int32_t (-1) = some 0 ∧ ClampTo uint8_t int32_t 77 = some 77 :=
  ⟨by decide,
    (ClampTo_saturates uint8_t int32_t 300 (by decide)).trans (by decide),
    (ClampTo_saturates uint8_t int32_t (-1) (by decide)).trans (by decide),
    (ClampTo_saturates uint8_t int32_t 77 (by decide)).trans (by decide)⟩

/-- C10: for integer types `T` and `F` of the same size and every value `f` of
`F`, `WordCast<F>(WordCast<T>(f)) = f`, hence
`WordCast<T>(WordCast<F>(WordCast<T>(f))) = WordCast<T>(f)`, and each cast
keeps the bytes: the object representation of `WordCast<T>(f)` is that of
`f`.  The indeterminate initial bytes `r1`, `r2`, `r3` of the three locals do
not matter. -/
theorem WordCast_round_trip (T F : IntType) (f : Int) (r1 r2 r3 : List Nat)
    (hsize : T.size = F.size) (hf : F.inRange f) :
    WordCast F T (WordCast T F f r1) r2 = f ∧
      WordCast T F (WordCast F T (WordCast T F f r1) r2) r3 = WordCast T F f r1 ∧
      T.toBytes (WordCast T F f r1) = F.toBytes f ∧
      F.toBytes (WordCast F T (WordCast T F f r1) r2) = F.toBytes f := by
  have back : WordCast F T (WordCast T F f r1) r2 = f := by
    rw [WordCast_eq_cast F T _ r2 hsize.symm, WordCast_eq_cast T F f r1 hsize]
    have e : F.cast (T.cast f) = F.cast f := by
      apply F.cast_congr
      rw [← T.modulus_eq_of_size F hsize]
      exact T.cast_emod f
    rw [e]
    exact F.cast_of_inRange f hf
  refine ⟨back, ?_, ?_, ?_⟩
  · rw [back, WordCast_eq_cast T F f r1 hsize, WordCast_eq_cast T F f r3 hsize]
  · rw [WordCast_eq_cast T F f r1 hsize]
    exact T.toBytes_cast F f hsize
  · rw [back]

theorem WordCast_round_trip_witness :
    int32_t.size = uint32_t.size ∧ uint32_t.inRange 4294967295 ∧
      WordCast int32_t uint32_t 4294967295 [1, 2, 3, 4] = -1 ∧
      WordCast uint32_t int32_t (WordCast int32_t uint32_t 4294967295 [1, 2, 3, 4]) []
        = 4294967295 :=
  ⟨by decide, by decide, by decide,
    (WordCast_round_trip int32_t uint32_t 4294967295 [1, 2, 3, 4] [] [] (by decide)
      (by decide)).1⟩

/-! ## The scans -/

theorem size_t_sub_of_le (a b : Nat) (h : b ≤ a) :
    size_t_sub a b = a - b := by
  unfold size_t_sub
  rw [if_pos h]

theorem size_t_sub_zero_one : size_t_sub 0 1 = SIZE_MAX := by decide

theorem size_t_mul_four (a : Nat) (ha : a ≤ 8) : size_t_mul a 4 = 4 * a := by
  unfold size_t_mul
  norm_num
  omega

/-- The decimal scan never leaves its loop through the loop condition. -/
theorem NumberParser10_loop_ne_ok (T : IntType) (number : List Nat) (fuel i : Nat)
    (result v : Int) : NumberParser10_loop T number fuel i result ≠ some (.ok v) := by
  induction fuel generalizing i result with
  | zero => simp [NumberParser10_loop]
  | succ fuel ih =>
    rw [NumberParser10_loop, if_pos (Nat.zero_le i)]
    cases NumberParser10_body T number i result with
    | error e => simp
    | ok r => exact ih _ _

/-- The hexadecimal scan never leaves its loop through the loop condition. -/
theorem NumberParser16_loop_ne_ok (T : IntType) (number : List Nat) (fuel i : Nat)
    (result v : Int) : NumberParser16_loop T number fuel i result ≠ some (.ok v) := by
  induction fuel generalizing i result with
  | zero => simp [NumberParser16_loop]
  | succ fuel ih =>
    rw [NumberParser16_loop, if_pos (Nat.zero_le i)]
    cases NumberParser16_body T number i result with
    | error e => simp
    | ok r => exact ih _ _

/-- No call of `ParseNumber` returns a value, whatever the type, the base, the
span and the step budget. -/
theorem ParseNumber_ne_ok (T : IntType) (base : Base) (fuel : Nat) (number : List Nat)
    (v : Int) : ParseNumber T base fuel number ≠ some (.ok v) := by
  cases base with
  | b10 =>
    unfold ParseNumber NumberParser10
    simp only
    intro h
    split at h
    · exact Option.noConfusion h
    · simp at h
    · rename_i r hr
      exact NumberParser10_loop_ne_ok _ _ _ _ _ _ hr
  | b16 =>
    unfold ParseNumber NumberParser16
    exact NumberParser16_loop_ne_ok _ _ _ _ _ _

/-- The decimal scan, entered at an index at or after a character that is not
a decimal digit, throws. -/
theorem NumberParser10_loop_invalid (T : IntType) (number : List Nat) (i : Nat) :
    ∀ (fuel : Nat) (result : Int), i < number.length → i < fuel →
      (∃ j c, j ≤ i ∧ number[j]? = some c ∧ IsDecimalDigit c = false) →
      NumberParser10_loop T number fuel i result = some (.error .invalid_argument) := by
  induction i with
  | zero =>
    intro fuel result hi hf ⟨j, c, hj, hc, hbad⟩
    obtain ⟨fuel, rfl⟩ : ∃ k, fuel = k + 1 := ⟨fuel - 1, by omega⟩
    have hj0 : j = 0 := by omega
    subst hj0
    rw [NumberParser10_loop, if_pos (Nat.zero_le _), NumberParser10_body, hc]
    simp [hbad]
  | succ i ih =>
    intro fuel result hi hf ⟨j, c, hj, hc, hbad⟩
    obtain ⟨fuel, rfl⟩ : ∃ k, fuel = k + 1 := ⟨fuel - 1, by omega⟩
    obtain ⟨d, hd⟩ : ∃ d, number[i + 1]? = some d :=
      ⟨number[i + 1], List.getElem?_eq_getElem hi⟩
    rw [NumberParser10_loop, if_pos (Nat.zero_le _), NumberParser10_body, hd]
    simp only
    cases hdig : IsDecimalDigit d with
    | false => simp
    | true =>
      simp only [if_true]
      rw [size_t_sub_of_le (i + 1) 1 (by omega), Nat.add_sub_cancel]
      apply ih _ _ (by omega) (by omega)
      refine ⟨j, c, ?_, hc, hbad⟩
      rcases Nat.lt_or_ge i j with h | h
      · have : j = i + 1 := by omega
        subst this
        rw [hd] at hc
        cases hc
        rw [hdig] at hbad
        exact Bool.noConfusion hbad
      · exact h

/-! ## Arithmetic of the accumulator -/

theorem IntType.modulus_dvd_promote (T : IntType) :
    ((T.modulus : Nat) : Int) ∣ ((T.promote.modulus : Nat) : Int) := by
  unfold IntType.promote
  split
  · exact IntType.modulus_dvd_modulus int32_t T (by show T.size ≤ 4; omega)
  · exact dvd_refl _

theorem IntType.cast_promote_cast (T : IntType) (x : Int) :
    T.cast (T.promote.cast x) = T.cast x := by
  apply T.cast_congr
  rw [← Int.emod_emod_of_dvd _ T.modulus_dvd_promote, T.promote.cast_emod,
    Int.emod_emod_of_dvd _ T.modulus_dvd_promote]

theorem IntType.cast_add_cast (T : IntType) (x y : Int) :
    T.cast (x + T.cast y) = T.cast (x + y) := by
  apply T.cast_congr
  rw [Int.add_emod, T.cast_emod, ← Int.add_emod]

theorem IntType.cast_cast_mul (T : IntType) (x y : Int) :
    T.cast (T.cast x * y) = T.cast (x * y) := by
  apply T.cast_congr
  rw [Int.mul_emod, T.cast_emod, ← Int.mul_emod]

theorem IntType.cast_mul_cast (T : IntType) (x y : Int) :
    T.cast (x * T.cast y) = T.cast (x * y) := by
  rw [Int.mul_comm, T.cast_cast_mul, Int.mul_comm]

theorem IntType.cast_add_promote_cast (T : IntType) (x y : Int) :
    T.cast (x + T.promote.cast y) = T.cast (x + y) := by
  apply T.cast_congr
  rw [Int.add_emod, ← Int.emod_emod_of_dvd (T.promote.cast y) T.modulus_dvd_promote,
    T.promote.cast_emod, Int.emod_emod_of_dvd _ T.modulus_dvd_promote, ← Int.add_emod]

/-- The compound assignment adds `digit * power` modulo `2 ^ bits`. -/
theorem accumulate_eq (T : IntType) (result digit power : Int) :
    accumulate T result digit power = T.cast (result + digit * power) := by
  unfold accumulate
  rw [T.cast_promote_cast, T.cast_add_promote_cast]

theorem pow_loop_eq (T : IntType) (base : Nat) (i : Nat) (x : Int) :
    pow_loop T base i (T.cast x) = T.cast (x * (base : Int) ^ i) := by
  induction i generalizing x with
  | zero => simp [pow_loop]
  | succ i ih =>
    rw [pow_loop, T.cast_promote_cast, T.cast_cast_mul, ih, pow_succ]
    congr 1
    ring

/-- `impl::pow<T>(base, exponent)` is `base ^ exponent` modulo `2 ^ bits`. -/
theorem pow_eq (T : IntType) (base exponent : Nat) :
    pow T base exponent = T.cast ((base : Int) ^ exponent) := by
  unfold pow
  split
  · rename_i h
    rw [h, pow_zero]
  · rename_i h
    obtain ⟨k, rfl⟩ : ∃ k, exponent = k + 1 := ⟨exponent - 1, by omega⟩
    rw [Nat.add_sub_cancel, pow_loop_eq, pow_succ]
    congr 1
    ring

theorem positional_append_singleton (b : Int) (vs : List Int) (v : Int) :
    positional b (vs ++ [v]) = positional b vs * b + v := by
  induction vs with
  | nil => simp [positional]
  | cons x xs ih =>
    show x * b ^ (xs ++ [v]).length + positional b (xs ++ [v])
      = (x * b ^ xs.length + positional b xs) * b + v
    rw [ih, List.length_append, List.length_singleton, pow_succ]
    ring

/-! ## Rejected spans (C3) and the last eight characters in base 16 -/

/-- Within the last eight characters of the span the shift of the
hexadecimal scan is narrower than an `int`. -/
theorem shift_in_last_eight (number : List Nat) (i : Nat) (hi : i < number.length)
    (h8 : number.length ≤ i + 8) :
    shl_int_1 (size_t_mul (size_t_sub (size_t_sub number.length i) 1) 4)
      = some ((2 ^ (4 * (number.length - i - 1)) : Nat) : Int) := by
  rw [size_t_sub_of_le _ _ (Nat.le_of_lt hi), size_t_sub_of_le _ _ (by omega),
    size_t_mul_four _ (by omega)]
  unfold shl_int_1
  rw [if_pos (by omega)]

theorem NumberParser10_strips (T : IntType) (fuel : Nat) (s : List Nat)
    (hT : T.isSigned = true) :
    NumberParser10 T fuel s
      = match NumberParser10_loop T (withoutSign s) fuel
            (size_t_sub (withoutSign s).length 1) 0 with
        | none => none
        | some (.error e) => some (.error e)
        | some (.ok result) =>
          some (.ok (if s.length > 1 ∧ s[0]? = some (L '-')
            then T.cast (T.promote.cast (-result)) else result)) := by
  unfold NumberParser10 withoutSign
  by_cases h1 : s.length > 1
  · by_cases h2 : s[0]? = some (L '-')
    · simp [hT, h1, h2]
    · simp [hT, h1, h2]
  · simp [hT, h1]

theorem NumberParser16_strips (T : IntType) (fuel : Nat) (s : List Nat) :
    NumberParser16 T fuel s
      = NumberParser16_loop T (withoutHexMark s) fuel
          (size_t_sub (withoutHexMark s).length 1) 0 := by
  unfold NumberParser16 withoutHexMark
  by_cases h1 : s.length > 2
  · by_cases h2 : s[0]? = some (L '0')
    · by_cases h3 : s[1]? = some (L 'x')
      · simp [h1, h2, h3]
      · by_cases h4 : s[1]? = some (L 'X')
        · simp [h1, h2, h3, h4]
        · simp [h1, h2, h3, h4]
    · simp [h1, h2]
  · simp [h1]

/-- C3: a span that, after the removal of one leading `-` when it is longer
than one character, holds a character outside `0`..`9`, makes
`ParseNumber<int32_t, 10>` throw `invalid_argument` as soon as the step budget
covers the span, and never makes it return a value. -/
theorem ParseNumber_int32_decimal_rejects (s : List Nat)
    (hbad : ∃ c ∈ withoutSign s, IsDecimalDigit c = false) :
    (∀ fuel, s.length ≤ fuel →
        ParseNumber int32_t .b10 fuel s = some (.error .invalid_argument)) ∧
      ∀ fuel v, ParseNumber int32_t .b10 fuel s ≠ some (.ok v) := by
  refine ⟨?_, fun fuel v => ParseNumber_ne_ok _ _ _ _ _⟩
  intro fuel hfuel
  obtain ⟨c, hmem, hc⟩ := hbad
  obtain ⟨j, hj⟩ := List.mem_iff_getElem?.mp hmem
  have hjlt : j < (withoutSign s).length := by
    by_contra hge
    rw [List.getElem?_eq_none (by omega)] at hj
    exact Option.noConfusion hj
  have hle : (withoutSign s).length ≤ s.length := by
    unfold withoutSign
    split
    · simp
    · exact le_refl _
  have hloop := NumberParser10_loop_invalid int32_t (withoutSign s)
    ((withoutSign s).length - 1) fuel 0 (by omega) (by omega) ⟨j, c, by omega, hj, hc⟩
  show NumberParser10 int32_t fuel s = _
  rw [NumberParser10_strips int32_t fuel s rfl, size_t_sub_of_le _ 1 (by omega), hloop]

theorem IntType.cast_cast_add (T : IntType) (x y : Int) :
    T.cast (T.cast x + y) = T.cast (x + y) := by
  rw [Int.add_comm, T.cast_add_cast, Int.add_comm]

theorem IntType.cast_add_mul_cast (T : IntType) (x d y : Int) :
    T.cast (x + d * T.cast y) = T.cast (x + d * y) := by
  rw [← T.cast_add_cast x (d * T.cast y), T.cast_mul_cast, T.cast_add_cast]

/-- The decimal scan over a run `pre` of decimal digits that is followed by
`suf`, entered at the last character of `pre`: every digit is added with its
weight, then the index wraps around to `SIZE_MAX` and the read leaves the
span. -/
theorem NumberParser10_loop_digits (T : IntType) (pre : List Nat) :
    ∀ (suf : List Nat) (fuel : Nat) (result : Int),
      (pre ++ suf).length ≤ SIZE_MAX → (∀ c ∈ pre, IsDecimalDigit c = true) →
      pre.length < fuel → T.inRange result →
      NumberParser10_loop T (pre ++ suf) fuel (size_t_sub pre.length 1) result
        = some (.error (.out_of_bounds SIZE_MAX
            (T.cast (result + positional 10 (pre.map decimalValue) * 10 ^ suf.length)))) := by
  induction pre using List.reverseRecOn with
  | nil =>
    intro suf fuel result hlen _ hf hr
    obtain ⟨fuel, rfl⟩ : ∃ k, fuel = k + 1 := ⟨fuel - 1, by simp at hf; omega⟩
    have hnone : ([] ++ suf)[SIZE_MAX]? = none :=
      List.getElem?_eq_none (by simpa using hlen)
    rw [List.length_nil, size_t_sub_zero_one, NumberParser10_loop, if_pos (Nat.zero_le _),
      NumberParser10_body, hnone]
    simp only [List.map_nil, positional, zero_mul, add_zero]
    rw [T.cast_of_inRange result hr]
  | append_singleton xs c ih =>
    intro suf fuel result hlen hd hf hr
    obtain ⟨fuel, rfl⟩ : ∃ k, fuel = k + 1 := ⟨fuel - 1, by omega⟩
    have hassoc : xs ++ [c] ++ suf = xs ++ (c :: suf) := by simp
    have hc : (xs ++ (c :: suf))[xs.length]? = some c := by
      rw [List.getElem?_append_right (le_refl _), Nat.sub_self]
      simp
    have hdig : IsDecimalDigit c = true := hd c (by simp)
    have hexp : size_t_sub (size_t_sub (xs ++ (c :: suf)).length xs.length) 1 = suf.length := by
      have e : (xs ++ (c :: suf)).length = xs.length + (suf.length + 1) := by simp
      have e1 : size_t_sub (xs.length + (suf.length + 1)) xs.length = suf.length + 1 := by
        rw [size_t_sub_of_le _ _ (by omega)]
        omega
      rw [e, e1, size_t_sub_of_le _ _ (by omega), Nat.add_sub_cancel]
    rw [hassoc] at hlen ⊢
    rw [List.length_append, List.length_singleton, size_t_sub_of_le _ 1 (by omega),
      Nat.add_sub_cancel, NumberParser10_loop, if_pos (Nat.zero_le _), NumberParser10_body, hc]
    simp only [hdig, if_true]
    rw [hexp, ih (c :: suf) fuel _ hlen (fun x hx => hd x (by simp [hx])) (by
      simp at hf; omega) (by rw [accumulate_eq]; exact T.cast_inRange _)]
    rw [accumulate_eq, pow_eq, T.cast_add_mul_cast, T.cast_cast_add, List.map_append,
      List.map_singleton, positional_append_singleton, List.length_cons, pow_succ]
    simp only [decimalValue]
    congr 4
    push_cast
    ring

/-- A pass of the hexadecimal scan over a hexadecimal digit, when the shift
is defined, adds the value of the digit times the weight. -/
theorem NumberParser16_body_hex (T : IntType) (number : List Nat) (i : Nat) (result : Int)
    (c : Nat) (p : Int)
    (hshift : shl_int_1 (size_t_mul (size_t_sub (size_t_sub number.length i) 1) 4) = some p)
    (hc : number[i]? = some c) (hhex : IsHexDigit c = true) :
    NumberParser16_body T number i result = .ok (accumulate T result (hexValue c) (T.cast p)) := by
  unfold NumberParser16_body hexValue
  simp only
  rw [hshift, hc]
  simp only
  cases h1 : IsDecimalDigit c with
  | true => simp
  | false =>
    cases h2 : IsCapitalHexDigit c with
    | true => simp
    | false =>
      cases h3 : IsLowerHexDigit c with
      | true => simp
      | false => simp [IsHexDigit, h1, h2, h3] at hhex

/-- The hexadecimal scan over a run `pre` of hexadecimal digits that is
followed by `suf`, in a span of at most eight characters, entered at the last
character of `pre`: every digit is added with its weight, then the index
wraps around to `SIZE_MAX`; the next pass shifts by `32` when the span has
eight characters, and reads outside the span otherwise. -/
theorem NumberParser16_loop_digits (T : IntType) (pre : List Nat) :
    ∀ (suf : List Nat) (fuel : Nat) (result : Int),
      (pre ++ suf).length ≤ 8 → (∀ c ∈ pre, IsHexDigit c = true) →
      pre.length < fuel → T.inRange result →
      NumberParser16_loop T (pre ++ suf) fuel (size_t_sub pre.length 1) result
        = some (.error (if (pre ++ suf).length = 8 then .shift_too_wide 32
            else .out_of_bounds SIZE_MAX
              (T.cast (result + positional 16 (pre.map hexValue) * 16 ^ suf.length)))) := by
  induction pre using List.reverseRecOn with
  | nil =>
    intro suf fuel result hlen _ hf hr
    obtain ⟨fuel, rfl⟩ : ∃ k, fuel = k + 1 := ⟨fuel - 1, by simp at hf; omega⟩
    have hlen8 : suf.length ≤ 8 := by simpa using hlen
    have hnone : ([] ++ suf)[SIZE_MAX]? = none :=
      List.getElem?_eq_none (by
        have : (8 : Nat) ≤ SIZE_MAX := by decide
        simp only [List.nil_append]
        omega)
    have hwrap : size_t_sub suf.length SIZE_MAX = suf.length + 1 := by
      unfold size_t_sub SIZE_MAX
      norm_num
      rw [if_neg (by omega)]
      omega
    have hn : size_t_mul (size_t_sub (size_t_sub ([] ++ suf).length SIZE_MAX) 1) 4
        = 4 * suf.length := by
      rw [List.nil_append, hwrap, size_t_sub_of_le _ 1 (by omega), Nat.add_sub_cancel,
        size_t_mul_four _ hlen8]
    rw [List.length_nil, size_t_sub_zero_one, NumberParser16_loop, if_pos (Nat.zero_le _),
      NumberParser16_body]
    simp only
    rw [hn]
    by_cases h8 : suf.length = 8
    · rw [h8]
      simp [shl_int_1, h8]
    · have hs : shl_int_1 (4 * suf.length) = some ((2 ^ (4 * suf.length) : Nat) : Int) := by
        unfold shl_int_1
        rw [if_pos (by omega)]
      rw [hs, hnone]
      simp only [List.map_nil, positional, zero_mul, add_zero, List.nil_append, if_neg h8]
      rw [T.cast_of_inRange result hr]
  | append_singleton xs c ih =>
    intro suf fuel result hlen hd hf hr
    obtain ⟨fuel, rfl⟩ : ∃ k, fuel = k + 1 := ⟨fuel - 1, by omega⟩
    have hassoc : xs ++ [c] ++ suf = xs ++ (c :: suf) := by simp
    have hc : (xs ++ (c :: suf))[xs.length]? = some c := by
      rw [List.getElem?_append_right (le_refl _), Nat.sub_self]
      simp
    have hhex : IsHexDigit c = true := hd c (by simp)
    have e : (xs ++ (c :: suf)).length = xs.length + (suf.length + 1) := by simp
    rw [hassoc] at hlen ⊢
    have hshift := shift_in_last_eight (xs ++ (c :: suf)) xs.length (by omega) (by omega)
    have hk : (xs ++ (c :: suf)).length - xs.length - 1 = suf.length := by omega
    rw [hk] at hshift
    rw [List.length_append, List.length_singleton, size_t_sub_of_le _ 1 (by omega),
      Nat.add_sub_cancel, NumberParser16_loop, if_pos (Nat.zero_le _),
      NumberParser16_body_hex T _ _ _ c _ hshift hc hhex]
    simp only
    rw [ih (c :: suf) fuel _ hlen (fun x hx => hd x (by simp [hx])) (by
      simp at hf; omega) (by rw [accumulate_eq]; exact T.cast_inRange _)]
    rw [accumulate_eq, T.cast_add_mul_cast, T.cast_cast_add, List.map_append,
      List.map_singleton, positional_append_singleton, List.length_cons, pow_succ]
    have hpow : (((2 ^ (4 * suf.length) : Nat) : Int)) = 16 ^ suf.length := by
      rw [pow_mul]
      norm_num
    rw [hpow]
    congr 3
    congr 2
    ring

/-! ## Values of digit runs -/

theorem decimalValue_bounds (c : Nat) (h : IsDecimalDigit c = true) :
    0 ≤ decimalValue c ∧ decimalValue c < 10 := by
  have h0 : L '0' = 48 := by decide
  have h9 : L '9' = 57 := by decide
  unfold IsDecimalDigit at h
  unfold decimalValue
  rw [h0, h9] at h
  rw [h0]
  simp only [ge_iff_le, Bool.and_eq_true, decide_eq_true_eq] at h
  omega

theorem hexValue_bounds (c : Nat) (h : IsHexDigit c = true) :
    0 ≤ hexValue c ∧ hexValue c < 16 := by
  have h0 : L '0' = 48 := by decide
  have h9 : L '9' = 57 := by decide
  have hA : L 'A' = 65 := by decide
  have hF : L 'F' = 70 := by decide
  have ha : L 'a' = 97 := by decide
  have hf : L 'f' = 102 := by decide
  unfold IsHexDigit at h
  unfold hexValue
  cases h1 : IsDecimalDigit c with
  | true =>
    simp only [if_true]
    unfold IsDecimalDigit at h1
    rw [h0, h9] at h1
    rw [h0]
    simp only [ge_iff_le, Bool.and_eq_true, decide_eq_true_eq] at h1
    omega
  | false =>
    cases h2 : IsCapitalHexDigit c with
    | true =>
      simp only [if_true, Bool.false_eq_true, if_false]
      unfold IsCapitalHexDigit at h2
      rw [hA, hF] at h2
      rw [hA]
      simp only [ge_iff_le, Bool.and_eq_true, decide_eq_true_eq] at h2
      omega
    | false =>
      rw [h1, h2] at h
      simp only [Bool.false_or] at h
      simp only [Bool.false_eq_true, if_false]
      unfold IsLowerHexDigit at h
      rw [ha, hf] at h
      rw [ha]
      simp only [ge_iff_le, Bool.and_eq_true, decide_eq_true_eq] at h
      omega

theorem positional_bounds (b : Int) (hb : 0 < b) (vs : List Int)
    (h : ∀ v ∈ vs, 0 ≤ v ∧ v < b) :
    0 ≤ positional b vs ∧ positional b vs < b ^ vs.length := by
  induction vs with
  | nil => simp [positional]
  | cons v vs ih =>
    obtain ⟨ih0, ih1⟩ := ih (fun x hx => h x (by simp [hx]))
    obtain ⟨hv0, hv1⟩ := h v (by simp)
    have hp : 0 < b ^ vs.length := pow_pos hb _
    have hm : v * b ^ vs.length ≤ (b - 1) * b ^ vs.length :=
      mul_le_mul_of_nonneg_right (by omega) (le_of_lt hp)
    have hs : b ^ (v :: vs).length = (b - 1) * b ^ vs.length + b ^ vs.length := by
      rw [List.length_cons, pow_succ]
      ring
    have hn : 0 ≤ v * b ^ vs.length := mul_nonneg hv0 (le_of_lt hp)
    rw [hs]
    unfold positional
    constructor <;> omega

theorem withoutSign_of_digits (s : List Nat) (hd : ∀ c ∈ s, IsDecimalDigit c = true) :
    withoutSign s = s := by
  unfold withoutSign
  rw [if_neg]
  rintro ⟨-, h⟩
  have hmem : L '-' ∈ s := List.mem_iff_getElem?.mpr ⟨0, h⟩
  have := hd _ hmem
  revert this
  decide

theorem withoutHexMark_of_digits (s : List Nat) (hd : ∀ c ∈ s, IsHexDigit c = true) :
    withoutHexMark s = s := by
  unfold withoutHexMark
  rw [if_neg]
  rintro ⟨-, -, h | h⟩
  · have := hd _ (List.mem_iff_getElem?.mpr ⟨1, h⟩)
    revert this
    decide
  · have := hd _ (List.mem_iff_getElem?.mpr ⟨1, h⟩)
    revert this
    decide

/-- The outcome of `ParseNumber<int32_t, 10>` on a run of decimal digits of
value at most `2 ^ 31 - 1`, once the step budget covers the span. -/
theorem NumberParser10_int32_digits (s : List Nat) (fuel : Nat) (hlen : s.length ≤ SIZE_MAX)
    (hd : ∀ c ∈ s, IsDecimalDigit c = true)
    (hv : positional 10 (s.map decimalValue) ≤ 2 ^ 31 - 1) (hf : s.length < fuel) :
    NumberParser10_loop int32_t s fuel (size_t_sub s.length 1) 0
      = some (.error (.out_of_bounds SIZE_MAX (positional 10 (s.map decimalValue)))) := by
  have h := NumberParser10_loop_digits int32_t s [] fuel 0 (by simpa using hlen) hd hf
    (by decide)
  rw [List.append_nil] at h
  rw [h]
  have h0 := (positional_bounds 10 (by decide) (s.map decimalValue) (by
    intro v hv
    obtain ⟨c, hc, rfl⟩ := List.mem_map.mp hv
    exact decimalValue_bounds c (hd c hc))).1
  have hr : int32_t.inRange (positional 10 (s.map decimalValue)) := by
    have e1 : int32_t.numeric_limits_min = -2147483648 := by decide
    have e2 : int32_t.numeric_limits_max = 2147483647 := by decide
    unfold IntType.inRange
    rw [e1, e2]
    constructor <;> omega
  simp only [List.length_nil, pow_zero, mul_one, zero_add]
  rw [int32_t.cast_of_inRange _ hr]

/-- The outcome of the hexadecimal scan for `uint32_t` on a run of at most
eight hexadecimal digits, once the step budget covers the span. -/
theorem NumberParser16_uint32_digits (s : List Nat) (fuel : Nat) (hlen : s.length ≤ 8)
    (hd : ∀ c ∈ s, IsHexDigit c = true) (hf : s.length < fuel) :
    NumberParser16_loop uint32_t s fuel (size_t_sub s.length 1) 0
      = some (.error (if s.length = 8 then .shift_too_wide 32
          else .out_of_bounds SIZE_MAX (positional 16 (s.map hexValue)))) := by
  have h := NumberParser16_loop_digits uint32_t s [] fuel 0 (by simpa using hlen) hd hf
    (by decide)
  rw [List.append_nil] at h
  rw [h]
  obtain ⟨h0, h1⟩ := positional_bounds 16 (by decide) (s.map hexValue) (by
    intro v hv
    obtain ⟨c, hc, rfl⟩ := List.mem_map.mp hv
    exact hexValue_bounds c (hd c hc))
  have hr : uint32_t.inRange (positional 16 (s.map hexValue)) := by
    have e1 : uint32_t.numeric_limits_min = 0 := by decide
    have e2 : uint32_t.numeric_limits_max = 4294967295 := by decide
    have hle : (16 : Int) ^ (s.map hexValue).length ≤ 16 ^ 8 :=
      pow_le_pow_right₀ (by decide) (by simpa using hlen)
    have e3 : (16 : Int) ^ 8 = 4294967296 := by norm_num
    unfold IntType.inRange
    rw [e1, e2]
    constructor <;> omega
  simp only [List.length_nil, pow_zero, mul_one, zero_add]
  rw [uint32_t.cast_of_inRange _ hr]

/-! ## Parsing runs of digits (C1, C2, C4, C5, C6) -/

/-- The outcome of `ParseNumber<int32_t, 10>` on a run of decimal digits of
value at most `2 ^ 31 - 1`. -/
theorem ParseNumber_int32_digits_outcome (s : List Nat) (fuel : Nat)
    (hlen : s.length ≤ SIZE_MAX) (hd : ∀ c ∈ s, IsDecimalDigit c = true)
    (hv : positional 10 (s.map decimalValue) ≤ 2 ^ 31 - 1) (hf : s.length < fuel) :
    ParseNumber int32_t .b10 fuel s
      = some (.error (.out_of_bounds SIZE_MAX (positional 10 (s.map decimalValue)))) := by
  show NumberParser10 int32_t fuel s = _
  rw [NumberParser10_strips int32_t fuel s rfl, withoutSign_of_digits s hd,
    NumberParser10_int32_digits s fuel hlen hd hv hf]

/-- The outcome of `ParseNumber<uint32_t, 16>` on a run of at most eight
hexadecimal digits. -/
theorem ParseNumber_uint32_digits_outcome (s : List Nat) (fuel : Nat) (hlen : s.length ≤ 8)
    (hd : ∀ c ∈ s, IsHexDigit c = true) (hf : s.length < fuel) :
    ParseNumber uint32_t .b16 fuel s
      = some (.error (if s.length = 8 then .shift_too_wide 32
          else .out_of_bounds SIZE_MAX (positional 16 (s.map hexValue)))) := by
  show NumberParser16 uint32_t fuel s = _
  rw [NumberParser16_strips uint32_t fuel s, withoutHexMark_of_digits s hd,
    NumberParser16_uint32_digits s fuel hlen hd hf]

/-- C1 (the code does not do this): on every span of decimal digits of value
at most `2 ^ 31 - 1`, `ParseNumber<int32_t, 10>` adds up exactly the claimed
sum of `digit_i * 10 ^ k_i`, but never returns it: after the character at
index `0` the index wraps around to `SIZE_MAX`, the loop condition `i >= 0`
still holds, and `number[SIZE_MAX]` is read outside the span. -/
theorem ParseNumber_int32_decimal_digits (s : List Nat) (hlen : s.length ≤ SIZE_MAX)
    (hd : ∀ c ∈ s, IsDecimalDigit c = true)
    (hv : positional 10 (s.map decimalValue) ≤ 2 ^ 31 - 1) :
    (∀ fuel, s.length < fuel →
        ParseNumber int32_t .b10 fuel s
          = some (.error (.out_of_bounds SIZE_MAX (positional 10 (s.map decimalValue))))) ∧
      ∀ fuel v, ParseNumber int32_t .b10 fuel s ≠ some (.ok v) := by
  exact ⟨fun fuel hf => ParseNumber_int32_digits_outcome s fuel hlen hd hv hf,
    fun fuel v => ParseNumber_ne_ok _ _ _ _ _⟩

theorem ParseNumber_int32_decimal_digits_witness :
    (wstring_view "123").length ≤ SIZE_MAX ∧
      (∀ c ∈ wstring_view "123", IsDecimalDigit c = true) ∧
      positional 10 ((wstring_view "123").map decimalValue) = 123 ∧
      ParseNumber int32_t .b10 4 (wstring_view "123")
        = some (.error (.out_of_bounds SIZE_MAX 123)) ∧
      ∀ fuel v, ParseNumber int32_t .b10 fuel (wstring_view "123") ≠ some (.ok v) :=
  ⟨by decide, by decide, by decide,
    ((ParseNumber_int32_decimal_digits (wstring_view "123") (by decide) (by decide)
      (by decide)).1 4 (by decide)).trans (by decide),
    (ParseNumber_int32_decimal_digits (wstring_view "123") (by decide) (by decide)
      (by decide)).2⟩

/-- C2 (the code does not do this): on every span of at most eight
hexadecimal digits, `ParseNumber<uint32_t, 16>` adds up exactly the claimed
sum of `value_i * 16 ^ k_i`, but never returns it: after the character at
index `0` the index wraps around to `SIZE_MAX` and the loop goes on, to the
shift `1 << 32` when the span has eight characters and to the read of
`number[SIZE_MAX]` outside the span otherwise. -/
theorem ParseNumber_uint32_hex_digits (s : List Nat) (hlen : s.length ≤ 8)
    (hd : ∀ c ∈ s, IsHexDigit c = true) :
    (∀ fuel, s.length < fuel →
        ParseNumber uint32_t .b16 fuel s
          = some (.error (if s.length = 8 then .shift_too_wide 32
              else .out_of_bounds SIZE_MAX (positional 16 (s.map hexValue))))) ∧
      ∀ fuel v, ParseNumber uint32_t .b16 fuel s ≠ some (.ok v) := by
  exact ⟨fun fuel hf => ParseNumber_uint32_digits_outcome s fuel hlen hd hf,
    fun fuel v => ParseNumber_ne_ok _ _ _ _ _⟩

theorem ParseNumber_uint32_hex_digits_witness :
    (wstring_view "ff").length ≤ 8 ∧
      (∀ c ∈ wstring_view "ff", IsHexDigit c = true) ∧
      positional 16 ((wstring_view "ff").map hexValue) = 255 ∧
      ParseNumber uint32_t .b16 3 (wstring_view "ff")
        = some (.error (.out_of_bounds SIZE_MAX 255)) ∧
      ∀ fuel v, ParseNumber uint32_t .b16 fuel (wstring_view "ff") ≠ some (.ok v) :=
  ⟨by decide, by decide, by decide,
    ((ParseNumber_uint32_hex_digits (wstring_view "ff") (by decide) (by decide)).1 3
      (by decide)).trans (by decide),
    (ParseNumber_uint32_hex_digits (wstring_view "ff") (by decide) (by decide)).2⟩

/-- C4 (the code does not do this): on the empty span neither parser throws
`invalid_argument`.  The index starts at `number.length() - 1 = SIZE_MAX` and
the first pass reads `number[SIZE_MAX]` outside the span, in base 10 and in
base 16, whatever the step budget. -/
theorem ParseNumber_empty_span (fuel : Nat) :
    ParseNumber int32_t .b10 (fuel + 1) [] = some (.error (.out_of_bounds SIZE_MAX 0)) ∧
      ParseNumber uint32_t .b16 (fuel + 1) [] = some (.error (.out_of_bounds SIZE_MAX 0)) ∧
      ParseNumber int32_t .b10 fuel [] ≠ some (.error .invalid_argument) ∧
      ParseNumber uint32_t .b16 fuel [] ≠ some (.error .invalid_argument) := by
  refine ⟨rfl, rfl, ?_, ?_⟩
  · cases fuel with
    | zero => decide
    | succ k =>
      have h : ParseNumber int32_t .b10 (k + 1) []
          = some (.error (.out_of_bounds SIZE_MAX 0)) := rfl
      rw [h]
      decide
  · cases fuel with
    | zero => decide
    | succ k =>
      have h : ParseNumber uint32_t .b16 (k + 1) []
          = some (.error (.out_of_bounds SIZE_MAX 0)) := rfl
      rw [h]
      decide

/-- C5 (the code does not do this): on `-` followed by a non-empty run `d` of
decimal digits of value at most `2 ^ 31 - 1`, `ParseNumber<int32_t, 10>`
strips the sign and adds up the value of `d`, but never negates nor returns
it: the scan runs off the front of the span exactly as it does on `d`
alone. -/
theorem ParseNumber_int32_negative_digits (d : List Nat) (hne : d ≠ [])
    (hlen : d.length ≤ SIZE_MAX) (hd : ∀ c ∈ d, IsDecimalDigit c = true)
    (hv : positional 10 (d.map decimalValue) ≤ 2 ^ 31 - 1) :
    (∀ fuel, d.length < fuel →
        ParseNumber int32_t .b10 fuel (L '-' :: d)
          = some (.error (.out_of_bounds SIZE_MAX (positional 10 (d.map decimalValue)))) ∧
        ParseNumber int32_t .b10 fuel (L '-' :: d) = ParseNumber int32_t .b10 fuel d) ∧
      ∀ fuel v, ParseNumber int32_t .b10 fuel (L '-' :: d) ≠ some (.ok v) := by
  refine ⟨?_, fun fuel v => ParseNumber_ne_ok _ _ _ _ _⟩
  intro fuel hf
  have hpos : 0 < d.length := List.length_pos.mpr hne
  have hstrip : withoutSign (L '-' :: d) = d := by
    unfold withoutSign
    rw [if_pos ⟨by simp only [List.length_cons]; omega, by simp⟩]
    rfl
  have h1 : ParseNumber int32_t .b10 fuel (L '-' :: d)
      = some (.error (.out_of_bounds SIZE_MAX (positional 10 (d.map decimalValue)))) := by
    show NumberParser10 int32_t fuel (L '-' :: d) = _
    rw [NumberParser10_strips int32_t fuel _ rfl, hstrip,
      NumberParser10_int32_digits d fuel hlen hd hv hf]
  exact ⟨h1, h1.trans (ParseNumber_int32_digits_outcome d fuel hlen hd hv hf).symm⟩

theorem ParseNumber_int32_negative_digits_witness :
    wstring_view "42" ≠ [] ∧ (wstring_view "42").length ≤ SIZE_MAX ∧
      (∀ c ∈ wstring_view "42", IsDecimalDigit c = true) ∧
      positional 10 ((wstring_view "42").map decimalValue) = 42 ∧
      L '-' :: wstring_view "42" = wstring_view "-42" ∧
      ParseNumber int32_t .b10 3 (L '-' :: wstring_view "42")
        = some (.error (.out_of_bounds SIZE_MAX 42)) :=
  ⟨by decide, by decide, by decide, by decide, by decide,
    ((ParseNumber_int32_negative_digits (wstring_view "42") (by decide) (by decide)
      (by decide) (by decide)).1 3 (by decide)).1.trans (by decide)⟩

/-- C6 (the code does not do this): on `0x` or `0X` followed by a non-empty
run `s` of at most eight hexadecimal digits, `ParseNumber<uint32_t, 16>`
strips the mark and ends exactly as it does on `s` alone, without returning a
value: the scan runs off the front of the span. -/
theorem ParseNumber_uint32_hex_marked (s : List Nat) (hne : s ≠ []) (hlen : s.length ≤ 8)
    (hd : ∀ c ∈ s, IsHexDigit c = true) :
    (∀ fuel, s.length < fuel →
        ParseNumber uint32_t .b16 fuel (L '0' :: L 'x' :: s)
          = some (.error (if s.length = 8 then .shift_too_wide 32
              else .out_of_bounds SIZE_MAX (positional 16 (s.map hexValue)))) ∧
        ParseNumber uint32_t .b16 fuel (L '0' :: L 'X' :: s)
          = ParseNumber uint32_t .b16 fuel (L '0' :: L 'x' :: s) ∧
        ParseNumber uint32_t .b16 fuel (L '0' :: L 'x' :: s)
          = ParseNumber uint32_t .b16 fuel s) ∧
      ∀ fuel v, ParseNumber uint32_t .b16 fuel (L '0' :: L 'x' :: s) ≠ some (.ok v) ∧
        ParseNumber uint32_t .b16 fuel (L '0' :: L 'X' :: s) ≠ some (.ok v) := by
  refine ⟨?_, fun fuel v => ⟨ParseNumber_ne_ok _ _ _ _ _, ParseNumber_ne_ok _ _ _ _ _⟩⟩
  intro fuel hf
  have hpos : 0 < s.length := List.length_pos.mpr hne
  have hx : withoutHexMark (L '0' :: L 'x' :: s) = s := by
    unfold withoutHexMark
    rw [if_pos ⟨by simp only [List.length_cons]; omega, by simp, Or.inl (by simp)⟩]
    rfl
  have hX : withoutHexMark (L '0' :: L 'X' :: s) = s := by
    unfold withoutHexMark
    rw [if_pos ⟨by simp only [List.length_cons]; omega, by simp, Or.inr (by simp)⟩]
    rfl
  have h1 : ParseNumber uint32_t .b16 fuel (L '0' :: L 'x' :: s)
      = some (.error (if s.length = 8 then .shift_too_wide 32
          else .out_of_bounds SIZE_MAX (positional 16 (s.map hexValue)))) := by
    show NumberParser16 uint32_t fuel _ = _
    rw [NumberParser16_strips uint32_t fuel _, hx, NumberParser16_uint32_digits s fuel hlen hd hf]
  have h2 : ParseNumber uint32_t .b16 fuel (L '0' :: L 'X' :: s)
      = ParseNumber uint32_t .b16 fuel (L '0' :: L 'x' :: s) := by
    show NumberParser16 uint32_t fuel _ = NumberParser16 uint32_t fuel _
    rw [NumberParser16_strips uint32_t fuel _, NumberParser16_strips uint32_t fuel _, hx, hX]
  exact ⟨h1, h2, h1.trans (ParseNumber_uint32_digits_outcome s fuel hlen hd hf).symm⟩

theorem ParseNumber_uint32_hex_marked_witness :
    wstring_view "1F" ≠ [] ∧ (wstring_view "1F").length ≤ 8 ∧
      (∀ c ∈ wstring_view "1F", IsHexDigit c = true) ∧
      positional 16 ((wstring_view "1F").map hexValue) = 31 ∧
      L '0' :: L 'x' :: wstring_view "1F" = wstring_view "0x1F" ∧
      ParseNumber uint32_t .b16 3 (L '0' :: L 'x' :: wstring_view "1F")
        = some (.error (.out_of_bounds SIZE_MAX 31)) :=
  ⟨by decide, by decide, by decide, by decide, by decide,
    ((ParseNumber_uint32_hex_marked (wstring_view "1F") (by decide) (by decide)
      (by decide)).1 3 (by decide)).1.trans (by decide)⟩

/-! ## Rejected spans: examples (C3) -/

theorem ParseNumber_int32_decimal_rejects_witness :
    ((∃ c ∈ withoutSign (wstring_view "12a"), IsDecimalDigit c = false) ∧
        ParseNumber int32_t .b10 3 (wstring_view "12a") = some (.error .invalid_argument)) ∧
      ((∃ c ∈ withoutSign (wstring_view "a12"), IsDecimalDigit c = false) ∧
        ParseNumber int32_t .b10 3 (wstring_view "a12") = some (.error .invalid_argument)) ∧
      ((∃ c ∈ withoutSign (wstring_view "1-2"), IsDecimalDigit c = false) ∧
        ParseNumber int32_t .b10 3 (wstring_view "1-2") = some (.error .invalid_argument)) ∧
      ((∃ c ∈ withoutSign (wstring_view "+5"), IsDecimalDigit c = false) ∧
        ParseNumber int32_t .b10 2 (wstring_view "+5") = some (.error .invalid_argument)) ∧
      ((∃ c ∈ withoutSign (wstring_view "--5"), IsDecimalDigit c = false) ∧
        ParseNumber int32_t .b10 3 (wstring_view "--5") = some (.error .invalid_argument)) :=
  ⟨⟨by decide,
      (ParseNumber_int32_decimal_rejects (wstring_view "12a") (by decide)).1 3 (by decide)⟩,
    ⟨by decide,
      (ParseNumber_int32_decimal_rejects (wstring_view "a12") (by decide)).1 3 (by decide)⟩,
    ⟨by decide,
      (ParseNumber_int32_decimal_rejects (wstring_view "1-2") (by decide)).1 3 (by decide)⟩,
    ⟨by decide,
      (ParseNumber_int32_decimal_rejects (wstring_view "+5") (by decide)).1 2 (by decide)⟩,
    ⟨by decide,
      (ParseNumber_int32_decimal_rejects (wstring_view "--5") (by decide)).1 3 (by decide)⟩⟩

/-! ## Unsigned targets and single characters (C11, C12, C16, C18) -/

theorem IntType.cast_unsigned (T : IntType) (hT : T.isSigned = false) (x : Int) :
    T.cast x = x % (T.modulus : Int) := by
  unfold IntType.cast
  simp [hT]

/-- For an unsigned target no sign is looked for: the scan runs over the whole
span. -/
theorem NumberParser10_unsigned (T : IntType) (hT : T.isSigned = false) (fuel : Nat)
    (s : List Nat) :
    NumberParser10 T fuel s
      = match NumberParser10_loop T s fuel (size_t_sub s.length 1) 0 with
        | none => none
        | some (.error e) => some (.error e)
        | some (.ok result) => some (.ok result) := by
  unfold NumberParser10
  simp [hT]

/-- C11: on the span that holds the single character `-`,
`ParseNumber<int32_t, 10>` throws `invalid_argument` on its first pass, and no
step budget makes it return `0` or any other value. -/
theorem ParseNumber_int32_lone_sign (fuel : Nat) :
    ParseNumber int32_t .b10 (fuel + 1) [L '-'] = some (.error .invalid_argument) ∧
      ∀ v, ParseNumber int32_t .b10 fuel [L '-'] ≠ some (.ok v) :=
  ⟨rfl, fun v => ParseNumber_ne_ok _ _ _ _ v⟩

/-- C16: on every span whose first character is `-`,
`ParseNumber<uint32_t, 10>` throws `invalid_argument` as soon as the step
budget covers the span, and never returns a value: the sign is neither
skipped nor applied. -/
theorem ParseNumber_uint32_leading_sign (s : List Nat) (hs : s[0]? = some (L '-')) :
    (∀ fuel, s.length ≤ fuel →
        ParseNumber uint32_t .b10 fuel s = some (.error .invalid_argument)) ∧
      ∀ fuel v, ParseNumber uint32_t .b10 fuel s ≠ some (.ok v) := by
  refine ⟨?_, fun fuel v => ParseNumber_ne_ok _ _ _ _ _⟩
  intro fuel hfuel
  have hpos : 0 < s.length := by
    by_contra h
    rw [List.getElem?_eq_none (by omega)] at hs
    exact Option.noConfusion hs
  have hloop := NumberParser10_loop_invalid uint32_t s (s.length - 1) fuel 0 (by omega)
    (by omega) ⟨0, L '-', Nat.zero_le _, hs, by decide⟩
  show NumberParser10 uint32_t fuel s = _
  rw [NumberParser10_unsigned uint32_t rfl fuel s, size_t_sub_of_le _ 1 (by omega), hloop]

theorem ParseNumber_uint32_leading_sign_witness :
    ((wstring_view "-5")[0]? = some (L '-') ∧
        ParseNumber uint32_t .b10 2 (wstring_view "-5") = some (.error .invalid_argument)) ∧
      ((wstring_view "-")[0]? = some (L '-') ∧
        ParseNumber uint32_t .b10 1 (wstring_view "-") = some (.error .invalid_argument)) ∧
      ((wstring_view "-1x")[0]? = some (L '-') ∧
        ParseNumber uint32_t .b10 3 (wstring_view "-1x") = some (.error .invalid_argument)) :=
  ⟨⟨by decide, (ParseNumber_uint32_leading_sign (wstring_view "-5") (by decide)).1 2
      (by decide)⟩,
    ⟨by decide, (ParseNumber_uint32_leading_sign (wstring_view "-") (by decide)).1 1
      (by decide)⟩,
    ⟨by decide, (ParseNumber_uint32_leading_sign (wstring_view "-1x") (by decide)).1 3
      (by decide)⟩⟩

/-- C18: for every unsigned target type `T`, every base `b` of type `uint8_t`
and every exponent `e`, `impl::pow<T>(b, e)` (a total function: its loop
counts `i` down to `0`) is `b ^ e` modulo `2 ^ bits`; `pow<T>(b, 0) = 1`, also
for `b = 0`, and `pow<T>(b, 1) = b`. -/
theorem pow_unsigned (T : IntType) (b e : Nat) (hT : T.isSigned = false) (hb : b < 256) :
    pow T b e = (((b ^ e % 2 ^ T.bits : Nat)) : Int) ∧ pow T b 0 = 1 ∧ pow T 0 0 = 1 ∧
      pow T b 1 = (b : Int) := by
  have hM := T.modulus_eq
  have hH := T.half_pos
  have h256 : 256 ≤ T.modulus := by
    rw [T.modulus_eq_pow]
    calc 256 = 256 ^ 1 := by norm_num
      _ ≤ 256 ^ T.size := Nat.pow_le_pow_right (by decide) T.size_pos
  have hmod : pow T b e = (((b ^ e % 2 ^ T.bits : Nat)) : Int) := by
    rw [pow_eq, T.cast_unsigned hT]
    unfold IntType.modulus
    push_cast
    rfl
  have h1 : ∀ n : Nat, n < 256 → T.cast (n : Int) = (n : Int) := by
    intro n hn
    rw [T.cast_unsigned hT]
    exact Int.emod_eq_of_lt (by omega) (by omega)
  refine ⟨hmod, ?_, ?_, ?_⟩
  · rw [pow_eq, pow_zero]
    exact h1 1 (by decide)
  · rw [pow_eq, pow_zero]
    exact h1 1 (by decide)
  · rw [pow_eq, pow_one]
    exact h1 b hb

theorem pow_unsigned_witness :
    uint32_t.isSigned = false ∧ 10 < 256 ∧ pow uint32_t 10 10 = 1410065408 ∧
      pow uint8_t 0 0 = 1 ∧ pow uint64_t 16 1 = 16 :=
  ⟨rfl, by decide, (pow_unsigned uint32_t 10 10 rfl (by decide)).1.trans (by decide),
    (pow_unsigned uint8_t 0 0 rfl (by decide)).2.1,
    (pow_unsigned uint64_t 16 1 rfl (by decide)).2.2.2⟩

/-! ## Digit runs for any target type (C12, C13) -/

theorem IntType.zero_inRange (T : IntType) : T.inRange 0 := by
  have hH := T.half_pos
  have hM := T.modulus_eq
  unfold IntType.inRange IntType.numeric_limits_min IntType.numeric_limits_max
  cases T.isSigned <;> simp <;> omega

/-- The decimal parser on a run of decimal digits, for any target type: the
digits are added up modulo `2 ^ bits`, then `number[SIZE_MAX]` is read
outside the span. -/
theorem NumberParser10_digits_outcome (T : IntType) (s : List Nat) (fuel : Nat)
    (hlen : s.length ≤ SIZE_MAX) (hd : ∀ c ∈ s, IsDecimalDigit c = true)
    (hf : s.length < fuel) :
    NumberParser10 T fuel s = some (.error (.out_of_bounds SIZE_MAX
      (T.cast (positional 10 (s.map decimalValue))))) := by
  have h := NumberParser10_loop_digits T s [] fuel 0 (by simpa using hlen) hd hf
    T.zero_inRange
  rw [List.append_nil] at h
  simp only [List.length_nil, pow_zero, mul_one, zero_add] at h
  cases hT : T.isSigned with
  | true => rw [NumberParser10_strips T fuel s hT, withoutSign_of_digits s hd, h]
  | false => rw [NumberParser10_unsigned T hT fuel s, h]

/-- C12 (the code does not do this): on every span of decimal digits
`ParseNumber<uint32_t, 10>` adds up the decimal value modulo `2 ^ 32`, without
any overflow error, but never returns it: the index wraps around to
`SIZE_MAX` and `number[SIZE_MAX]` is read outside the span. -/
theorem ParseNumber_uint32_decimal_digits (s : List Nat) (hlen : s.length ≤ SIZE_MAX)
    (hd : ∀ c ∈ s, IsDecimalDigit c = true) :
    (∀ fuel, s.length < fuel →
        ParseNumber uint32_t .b10 fuel s
          = some (.error (.out_of_bounds SIZE_MAX
              (positional 10 (s.map decimalValue) % 2 ^ 32)))) ∧
      ∀ fuel v, ParseNumber uint32_t .b10 fuel s ≠ some (.ok v) := by
  refine ⟨?_, fun fuel v => ParseNumber_ne_ok _ _ _ _ _⟩
  intro fuel hf
  show NumberParser10 uint32_t fuel s = _
  rw [NumberParser10_digits_outcome uint32_t s fuel hlen hd hf, uint32_t.cast_unsigned rfl]
  rfl

theorem ParseNumber_uint32_decimal_digits_witness :
    ((wstring_view "4294967296").length ≤ SIZE_MAX ∧
        (∀ c ∈ wstring_view "4294967296", IsDecimalDigit c = true) ∧
        positional 10 ((wstring_view "4294967296").map decimalValue) = 4294967296 ∧
        ParseNumber uint32_t .b10 11 (wstring_view "4294967296")
          = some (.error (.out_of_bounds SIZE_MAX 0))) ∧
      ((wstring_view "4294967295").length ≤ SIZE_MAX ∧
        (∀ c ∈ wstring_view "4294967295", IsDecimalDigit c = true) ∧
        ParseNumber uint32_t .b10 11 (wstring_view "4294967295")
          = some (.error (.out_of_bounds SIZE_MAX 4294967295))) :=
  ⟨⟨by decide, by decide, by decide,
      ((ParseNumber_uint32_decimal_digits (wstring_view "4294967296") (by decide)
        (by decide)).1 11 (by decide)).trans (by decide)⟩,
    ⟨by decide, by decide,
      ((ParseNumber_uint32_decimal_digits (wstring_view "4294967295") (by decide)
        (by decide)).1 11 (by decide)).trans (by decide)⟩⟩

/-- C13 (the code does not do this): for every target type, a scan that
meets only valid digits does not stop after the character at index `0`.  The
index wraps around to `SIZE_MAX`, which is no index of the span, and the next
pass reads `number[SIZE_MAX]`: the parse ends neither by a return nor by
`invalid_argument`.  In base 16 this is shown for spans of fewer than eight
characters. -/
theorem ParseNumber_reads_outside_span (T : IntType) (s : List Nat)
    (hlen : s.length ≤ SIZE_MAX) :
    s[SIZE_MAX]? = none ∧
      ((∀ c ∈ s, IsDecimalDigit c = true) → ∀ fuel, s.length < fuel →
        ∃ r, ParseNumber T .b10 fuel s = some (.error (.out_of_bounds SIZE_MAX r))) ∧
      ((∀ c ∈ s, IsHexDigit c = true) → s.length < 8 → ∀ fuel, s.length < fuel →
        ∃ r, ParseNumber T .b16 fuel s = some (.error (.out_of_bounds SIZE_MAX r))) ∧
      ∀ base fuel v, ParseNumber T base fuel s ≠ some (.ok v) := by
  refine ⟨List.getElem?_eq_none hlen, ?_, ?_, fun base fuel v => ParseNumber_ne_ok _ _ _ _ _⟩
  · intro hd fuel hf
    exact ⟨_, NumberParser10_digits_outcome T s fuel hlen hd hf⟩
  · intro hd h8 fuel hf
    have h := NumberParser16_loop_digits T s [] fuel 0
      (by simpa using (by omega : s.length ≤ 8)) hd hf T.zero_inRange
    rw [List.append_nil, if_neg (by omega)] at h
    refine ⟨T.cast (0 + positional 16 (s.map hexValue) * 16 ^ ([] : List Nat).length), ?_⟩
    show NumberParser16 T fuel s = _
    rw [NumberParser16_strips T fuel s, withoutHexMark_of_digits s hd, h]

theorem ParseNumber_reads_outside_span_witness :
    (wstring_view "123").length ≤ SIZE_MAX ∧
      (∀ c ∈ wstring_view "123", IsDecimalDigit c = true) ∧
      (∀ c ∈ wstring_view "ff", IsHexDigit c = true) ∧
      (∃ r, ParseNumber int32_t .b10 4 (wstring_view "123")
        = some (.error (.out_of_bounds SIZE_MAX r))) ∧
      (∃ r, ParseNumber uint32_t .b16 3 (wstring_view "ff")
        = some (.error (.out_of_bounds SIZE_MAX r))) :=
  ⟨by decide, by decide, by decide,
    (ParseNumber_reads_outside_span int32_t (wstring_view "123") (by decide)).2.1
      (by decide) 4 (by decide),
    (ParseNumber_reads_outside_span uint32_t (wstring_view "ff") (by decide)).2.2.1
      (by decide) (by decide) 3 (by decide)⟩

/-! ## `ClampTo` as a function of its argument (C17) -/

/-- C17: when every value of `T` is a value of `U`, `ClampTo<T>` is monotone,
`v1 <= v2` gives `ClampTo<T>(v1) <= ClampTo<T>(v2)`, and idempotent,
`ClampTo<T>(U(ClampTo<T>(v))) = ClampTo<T>(v)`. -/
theorem ClampTo_monotone_idempotent (T U : IntType) (v1 v2 : Int) (hTU : T.fitsIn U)
    (h : v1 ≤ v2) :
    (∃ r1 r2, ClampTo T U v1 = some r1 ∧ ClampTo T U v2 = some r2 ∧ r1 ≤ r2) ∧
      ∃ r, ClampTo T U v1 = some r ∧ ClampTo T U (U.cast r) = some r := by
  have hmm := T.min_le_max
  constructor
  · refine ⟨_, _, ClampTo_of_fitsIn T U v1 hTU, ClampTo_of_fitsIn T U v2 hTU, ?_⟩
    split_ifs <;> omega
  · refine ⟨_, ClampTo_of_fitsIn T U v1 hTU, ?_⟩
    have hr : T.inRange (if v1 < T.numeric_limits_min then T.numeric_limits_min
        else if T.numeric_limits_max < v1 then T.numeric_limits_max else v1) := by
      unfold IntType.inRange
      split_ifs <;> constructor <;> omega
    have hU : U.inRange (if v1 < T.numeric_limits_min then T.numeric_limits_min
        else if T.numeric_limits_max < v1 then T.numeric_limits_max else v1) :=
      ⟨le_trans hTU.1 hr.1, le_trans hr.2 hTU.2⟩
    rw [U.cast_of_inRange _ hU, ClampTo_of_fitsIn T U _ hTU]
    congr 1
    unfold IntType.inRange at hr
    split_ifs at hr ⊢ <;> omega

theorem ClampTo_monotone_idempotent_witness :
    uint8_t.fitsIn int32_t ∧ (-1 : Int) ≤ 300 ∧
      ClampTo uint8_t int32_t (-1) = some 0 ∧ ClampTo uint8_t int32_t 300 = some 255 ∧
      ∃ r, ClampTo uint8_t int32_t (-1) = some r ∧
        ClampTo uint8_t int32_t (int32_t.cast r) = some r :=
  ⟨by decide, by decide, by decide, by decide,
    (ClampTo_monotone_idempotent uint8_t int32_t (-1) 300 (by decide) (by decide)).2⟩

/-! ## Case of the letters in base 16 (C14) -/

theorem caseVariant_cases (c d : Nat) (h : caseVariant c d = true) :
    c = d ∨ (97 ≤ c ∧ c ≤ 102 ∧ d + 32 = c) ∨ (65 ≤ c ∧ c ≤ 70 ∧ d = c + 32) ∨
      (c = 120 ∧ d = 88) ∨ (c = 88 ∧ d = 120) := by
  have hA : L 'A' = 65 := by decide
  have hF : L 'F' = 70 := by decide
  have ha : L 'a' = 97 := by decide
  have hf : L 'f' = 102 := by decide
  have hx : L 'x' = 120 := by decide
  have hX : L 'X' = 88 := by decide
  unfold caseVariant IsLowerHexDigit IsCapitalHexDigit at h
  rw [hA, hF, ha, hf, hx, hX] at h
  simp only [Bool.or_eq_true, Bool.and_eq_true, beq_iff_eq, decide_eq_true_eq, ge_iff_le] at h
  omega

theorem caseVariants_length : ∀ (s t : List Nat), caseVariants s t = true → s.length = t.length
  | [], [], _ => rfl
  | [], _ :: _, h => by simp [caseVariants] at h
  | _ :: _, [], h => by simp [caseVariants] at h
  | c :: cs, d :: ds, h => by
    simp only [caseVariants, Bool.and_eq_true] at h
    simp [caseVariants_length cs ds h.2]

theorem caseVariants_getElem? : ∀ (s t : List Nat), caseVariants s t = true → ∀ i : Nat,
    (s[i]? = none ∧ t[i]? = none) ∨
      ∃ c d, s[i]? = some c ∧ t[i]? = some d ∧ caseVariant c d = true
  | [], [], _, i => Or.inl ⟨by simp, by simp⟩
  | [], _ :: _, h, _ => by simp [caseVariants] at h
  | _ :: _, [], h, _ => by simp [caseVariants] at h
  | c :: cs, d :: ds, h, i => by
    simp only [caseVariants, Bool.and_eq_true] at h
    cases i with
    | zero => exact Or.inr ⟨c, d, by simp, by simp, h.1⟩
    | succ i => simpa using caseVariants_getElem? cs ds h.2 i

/-- The classification of a hexadecimal pass does not see the case of a
letter. -/
theorem hex_classify_caseVariant (T : IntType) (r p : Int) (c d : Nat)
    (h : caseVariant c d = true) :
    (if IsDecimalDigit c then (.ok (accumulate T r ((c : Int) - (L '0' : Int)) p))
      else if IsCapitalHexDigit c then .ok (accumulate T r ((c : Int) - (L 'A' : Int) + 10) p)
      else if IsLowerHexDigit c then .ok (accumulate T r ((c : Int) - (L 'a' : Int) + 10) p)
      else .error .invalid_argument : Except Failure Int)
    = (if IsDecimalDigit d then (.ok (accumulate T r ((d : Int) - (L '0' : Int)) p))
      else if IsCapitalHexDigit d then .ok (accumulate T r ((d : Int) - (L 'A' : Int) + 10) p)
      else if IsLowerHexDigit d then .ok (accumulate T r ((d : Int) - (L 'a' : Int) + 10) p)
      else .error .invalid_argument : Except Failure Int) := by
  have h0 : L '0' = 48 := by decide
  have h9 : L '9' = 57 := by decide
  have hA : L 'A' = 65 := by decide
  have hF : L 'F' = 70 := by decide
  have ha : L 'a' = 97 := by decide
  have hf : L 'f' = 102 := by decide
  rcases caseVariant_cases c d h with rfl | ⟨h1, h2, rfl⟩ | ⟨h1, h2, rfl⟩ | ⟨rfl, rfl⟩ | ⟨rfl, rfl⟩
  · rfl
  · have e1 : IsDecimalDigit (d + 32) = false := by
      simp [IsDecimalDigit, h0, h9]; omega
    have e2 : IsCapitalHexDigit (d + 32) = false := by
      simp [IsCapitalHexDigit, hA, hF]; omega
    have e3 : IsLowerHexDigit (d + 32) = true := by
      simp [IsLowerHexDigit, ha, hf]; omega
    have e4 : IsDecimalDigit d = false := by
      simp [IsDecimalDigit, h0, h9]; omega
    have e5 : IsCapitalHexDigit d = true := by
      simp [IsCapitalHexDigit, hA, hF]; omega
    simp only [e1, e2, e3, e4, e5, if_true, Bool.false_eq_true, if_false, hA, ha]
    congr 2
    push_cast
    ring
  · have e1 : IsDecimalDigit (c + 32) = false := by
      simp [IsDecimalDigit, h0, h9]; omega
    have e2 : IsCapitalHexDigit (c + 32) = false := by
      simp [IsCapitalHexDigit, hA, hF]; omega
    have e3 : IsLowerHexDigit (c + 32) = true := by
      simp [IsLowerHexDigit, ha, hf]; omega
    have e4 : IsDecimalDigit c = false := by
      simp [IsDecimalDigit, h0, h9]; omega
    have e5 : IsCapitalHexDigit c = true := by
      simp [IsCapitalHexDigit, hA, hF]; omega
    simp only [e1, e2, e3, e4, e5, if_true, Bool.false_eq_true, if_false, hA, ha]
    congr 2
    push_cast
    ring
  · rfl
  · rfl

/-- A pass of the hexadecimal scan gives the same result on two spans that
differ by the case of letters. -/
theorem NumberParser16_body_caseVariants (T : IntType) (s t : List Nat)
    (h : caseVariants s t = true) (i : Nat) (r : Int) :
    NumberParser16_body T s i r = NumberParser16_body T t i r := by
  unfold NumberParser16_body
  simp only
  rw [caseVariants_length s t h]
  cases shl_int_1 (size_t_mul (size_t_sub (size_t_sub t.length i) 1) 4) with
  | none => rfl
  | some p =>
    simp only
    rcases caseVariants_getElem? s t h i with ⟨h1, h2⟩ | ⟨c, d, h1, h2, hcd⟩
    · rw [h1, h2]
    · rw [h1, h2]
      exact hex_classify_caseVariant T r (T.cast p) c d hcd

theorem NumberParser16_loop_caseVariants (T : IntType) (s t : List Nat)
    (h : caseVariants s t = true) (fuel : Nat) :
    ∀ (i : Nat) (r : Int), NumberParser16_loop T s fuel i r = NumberParser16_loop T t fuel i r := by
  induction fuel with
  | zero => intro i r; rfl
  | succ fuel ih =>
    intro i r
    rw [NumberParser16_loop, NumberParser16_loop, NumberParser16_body_caseVariants T s t h i r]
    split
    · cases NumberParser16_body T t i r with
      | error e => rfl
      | ok r2 => exact ih _ _
    · rfl

/-- Stripping the mark `0x` or `0X` keeps two spans equal up to the case of
letters. -/
theorem withoutHexMark_caseVariants (s t : List Nat) (h : caseVariants s t = true) :
    caseVariants (withoutHexMark s) (withoutHexMark t) = true := by
  have h0 : L '0' = 48 := by decide
  have hx : L 'x' = 120 := by decide
  have hX : L 'X' = 88 := by decide
  match s, t, h with
  | [], [], _ => rfl
  | [], _ :: _, h => simp [caseVariants] at h
  | _ :: _, [], h => simp [caseVariants] at h
  | [c], [d], h => simpa [withoutHexMark] using h
  | [_], _ :: _ :: _, h => simp [caseVariants] at h
  | _ :: _ :: _, [_], h => simp [caseVariants] at h
  | c0 :: c1 :: cs, d0 :: d1 :: ds, h =>
    have hh := h
    simp only [caseVariants, Bool.and_eq_true] at hh
    obtain ⟨k0, k1, k2⟩ := hh
    have hl := caseVariants_length cs ds k2
    have q0 := caseVariant_cases c0 d0 k0
    have q1 := caseVariant_cases c1 d1 k1
    by_cases hc : 0 < cs.length ∧ c0 = 48 ∧ (c1 = 120 ∨ c1 = 88)
    · have hd : 0 < ds.length ∧ d0 = 48 ∧ (d1 = 120 ∨ d1 = 88) := by omega
      have e1 : withoutHexMark (c0 :: c1 :: cs) = cs := by
        unfold withoutHexMark
        rw [if_pos]
        · rfl
        · simp [h0, hx, hX]
          omega
      have e2 : withoutHexMark (d0 :: d1 :: ds) = ds := by
        unfold withoutHexMark
        rw [if_pos]
        · rfl
        · simp [h0, hx, hX]
          omega
      rw [e1, e2]
      exact k2
    · have hd : ¬ (0 < ds.length ∧ d0 = 48 ∧ (d1 = 120 ∨ d1 = 88)) := by omega
      have e1 : withoutHexMark (c0 :: c1 :: cs) = c0 :: c1 :: cs := by
        unfold withoutHexMark
        rw [if_neg]
        simp [h0, hx, hX]
        omega
      have e2 : withoutHexMark (d0 :: d1 :: ds) = d0 :: d1 :: ds := by
        unfold withoutHexMark
        rw [if_neg]
        simp [h0, hx, hX]
        omega
      rw [e1, e2]
      exact h

/-- `NumberParser<T, 16>::impl` has the same outcome on two spans that differ
by the case of letters. -/
theorem NumberParser16_caseVariants (T : IntType) (s t : List Nat)
    (h : caseVariants s t = true) (fuel : Nat) :
    NumberParser16 T fuel s = NumberParser16 T fuel t := by
  have hw := withoutHexMark_caseVariants s t h
  rw [NumberParser16_strips, NumberParser16_strips, caseVariants_length _ _ hw]
  exact NumberParser16_loop_caseVariants T _ _ hw fuel _ _

/-- C14: when `t` is obtained from `s` by changing the case of letters
(`a`..`f` with `A`..`F`, `x` with `X`), `ParseNumber<uint32_t, 16>` has the
same outcome on `s` and on `t`, for every step budget: both fail, and in the
same way; neither returns a value. -/
theorem ParseNumber_uint32_hex_case_insensitive (s t : List Nat)
    (h : caseVariants s t = true) :
    (∀ fuel, ParseNumber uint32_t .b16 fuel s = ParseNumber uint32_t .b16 fuel t) ∧
      ∀ fuel v, ParseNumber uint32_t .b16 fuel s ≠ some (.ok v) ∧
        ParseNumber uint32_t .b16 fuel t ≠ some (.ok v) :=
  ⟨fun fuel => NumberParser16_caseVariants uint32_t s t h fuel,
    fun _ _ => ⟨ParseNumber_ne_ok _ _ _ _ _, ParseNumber_ne_ok _ _ _ _ _⟩⟩

theorem ParseNumber_uint32_hex_case_insensitive_witness :
    (caseVariants (wstring_view "0xfG") (wstring_view "0XFG") = true ∧
        ParseNumber uint32_t .b16 4 (wstring_view "0xfG")
          = ParseNumber uint32_t .b16 4 (wstring_view "0XFG") ∧
        ParseNumber uint32_t .b16 4 (wstring_view "0XFG") = some (.error .invalid_argument)) ∧
      (caseVariants (wstring_view "1aB") (wstring_view "1Ab") = true ∧
        ParseNumber uint32_t .b16 4 (wstring_view "1aB")
          = ParseNumber uint32_t .b16 4 (wstring_view "1Ab") ∧
        ParseNumber uint32_t .b16 4 (wstring_view "1Ab")
          = some (.error (.out_of_bounds SIZE_MAX 427))) :=
  ⟨⟨by decide,
      (ParseNumber_uint32_hex_case_insensitive (wstring_view "0xfG") (wstring_view "0XFG")
        (by decide)).1 4, by decide⟩,
    ⟨by decide,
      (ParseNumber_uint32_hex_case_insensitive (wstring_view "1aB") (wstring_view "1Ab")
        (by decide)).1 4, by decide⟩⟩

/-! ## Weights of the hexadecimal digits (C15) -/

theorem size_t_mul_four_of_lt (a : Nat) (ha : a < 2 ^ 62) : size_t_mul a 4 = 4 * a := by
  unfold size_t_mul
  norm_num at ha ⊢
  omega

/-- C15 (the code does not do this for `k >= 8`): the weight of the digit
that sits `k = length - i - 1` positions from the right end is the `int`
shift `1 << 4 * k`, converted to `T`.  For `k <= 7` it is `16 ^ k` modulo
`2 ^ bits` for every unsigned `T`, and a pass over a hexadecimal digit adds
the value of the digit times that weight.  For `k >= 8` the shift is by `32`
bits or more whatever the width of `T` is, and the pass ends there, before
the character is read: the digit gets no weight, neither `16 ^ k` for
`uint64_t` nor `0` for `uint32_t`. -/
theorem NumberParser16_weight (T : IntType) (number : List Nat) (i : Nat) (result : Int)
    (hi : i < number.length) (hlen : number.length < 2 ^ 62) :
    (number.length ≤ i + 8 →
      ∃ p, shl_int_1 (size_t_mul (size_t_sub (size_t_sub number.length i) 1) 4) = some p ∧
        (T.isSigned = false →
          T.cast p = (16 : Int) ^ (number.length - i - 1) % (2 : Int) ^ T.bits ∧
          ∀ c, number[i]? = some c → IsHexDigit c = true →
            NumberParser16_body T number i result
              = .ok ((result + hexValue c * (16 : Int) ^ (number.length - i - 1))
                  % (2 : Int) ^ T.bits))) ∧
      (i + 8 < number.length →
        NumberParser16_body T number i result
          = .error (.shift_too_wide (4 * (number.length - i - 1)))) := by
  constructor
  · intro h8
    have hs := shift_in_last_eight number i hi h8
    refine ⟨_, hs, ?_⟩
    intro hT
    have hpow : (((2 ^ (4 * (number.length - i - 1)) : Nat)) : Int)
        = (16 : Int) ^ (number.length - i - 1) := by
      rw [pow_mul]
      norm_num
    have hmod : ((T.modulus : Nat) : Int) = (2 : Int) ^ T.bits := by
      unfold IntType.modulus
      push_cast
      rfl
    constructor
    · rw [T.cast_unsigned hT, hpow, hmod]
    · intro c hc hhex
      rw [NumberParser16_body_hex T number i result c _ hs hc hhex, accumulate_eq,
        T.cast_add_mul_cast, T.cast_unsigned hT, hpow, hmod]
  · intro h8
    unfold NumberParser16_body
    simp only
    rw [size_t_sub_of_le _ _ (Nat.le_of_lt hi), size_t_sub_of_le _ _ (by omega),
      size_t_mul_four_of_lt _ (by omega)]
    have hn : shl_int_1 (4 * (number.length - i - 1)) = none := by
      unfold shl_int_1
      rw [if_neg (by omega), if_neg (by omega)]
    rw [hn]

theorem NumberParser16_weight_witness :
    (0 < (wstring_view "100000000").length ∧ (wstring_view "100000000").length < 2 ^ 62 ∧
        0 + 8 < (wstring_view "100000000").length ∧
        NumberParser16_body uint64_t (wstring_view "100000000") 0 0
          = .error (.shift_too_wide 32)) ∧
      (1 < (wstring_view "100000000").length ∧ (wstring_view "100000000").length ≤ 1 + 8 ∧
        ∃ p, shl_int_1 (size_t_mul (size_t_sub
            (size_t_sub (wstring_view "100000000").length 1) 1) 4) = some p ∧
          (uint64_t.isSigned = false →
            uint64_t.cast p = (16 : Int) ^ ((wstring_view "100000000").length - 1 - 1)
                % (2 : Int) ^ uint64_t.bits ∧
            ∀ c, (wstring_view "100000000")[1]? = some c → IsHexDigit c = true →
              NumberParser16_body uint64_t (wstring_view "100000000") 1 0
                = .ok ((0 + hexValue c * (16 : Int) ^ ((wstring_view "100000000").length - 1 - 1))
                    % (2 : Int) ^ uint64_t.bits))) :=
  ⟨⟨by decide, by decide, by decide,
      (NumberParser16_weight uint64_t (wstring_view "100000000") 0 0 (by decide)
        (by decide)).2 (by decide)⟩,
    ⟨by decide, by decide,
      (NumberParser16_weight uint64_t (wstring_view "100000000") 1 0 (by decide)
        (by decide)).1 (by decide)⟩⟩

/-- The calls named in C15: on `100000000` the scan ends at the ninth
character from the right, for `uint64_t` as for `uint32_t`, and no step
budget yields `4294967296` or any other value. -/
theorem ParseNumber_hex_nine_digits (k : Nat) :
    ParseNumber uint64_t .b16 (k + 9) (wstring_view "100000000")
        = some (.error (.shift_too_wide 32)) ∧
      ParseNumber uint32_t .b16 (k + 9) (wstring_view "100000000")
        = some (.error (.shift_too_wide 32)) ∧
      ParseNumber uint64_t .b16 k (wstring_view "100000000") ≠ some (.ok 4294967296) :=
  ⟨rfl, rfl, ParseNumber_ne_ok _ _ _ _ _⟩

/-! ## A character that is no hexadecimal digit (C7) -/

end Util
